import Mathlib

/-!
# Verification of the H5Support `H5Utilities` namespace-management core

A shallow embedding of `Source/H5Support/H5Utilities.h`.  C++ `std::string`
values are modelled as `List Char`; `std::string::npos` results of
`find_first_of` / `find_last_of` are modelled with `Option Nat`, and every
use site of `npos` in the source is translated by explicit case analysis
(the surrounding comments record the `size_t` arithmetic being mirrored).
The HDF5 C library (the "Container Gateway" of the specification) is
modelled per function group by a small explicit state, and the gateway
calls a function performs are recorded in an event trace so that claims
about *which* primitives run (and with which buffer sizes) are statable.
-/

set_option autoImplicit false

abbrev Str := List Char

/-- `std::string::find_first_of(c, 0)`: index of the first occurrence of the
character `c`, `none` standing for `std::string::npos`. -/
def findFirst (c : Char) : Str → Option Nat
  | [] => none
  | a :: as => if a = c then some 0 else (findFirst c as).map (· + 1)

/-- `std::string::find_first_of(c, i)`: first occurrence at index `≥ i`. -/
def findFirstFrom (c : Char) (s : Str) (i : Nat) : Option Nat :=
  (findFirst c (s.drop i)).map (· + i)

/-- `std::string::find_last_of(c)`: index of the last occurrence of `c`. -/
def findLast (c : Char) : Str → Option Nat
  | [] => none
  | a :: as =>
    match findLast c as with
    | some j => some (j + 1)
    | none => if a = c then some 0 else none

/-- `H5Utilities::getParentPath(const std::string&)` (H5Utilities.h:356).
The source computes `start = find_last_of('/')` and calls
`erase(start, size() - start)`.  When the path holds no separator,
`start` is `npos`, and `std::string::erase(pos, len)` throws
`std::out_of_range` for `pos > size()`; the thrown case is `none`. -/
def getParentPath (objectPath : Str) : Option Str :=
  match findLast '/' objectPath with
  | none => none
  | some start => some (objectPath.take start)

/-- `H5Utilities::getObjectNameFromPath` (H5Utilities.h:381).
The source computes `end = find_last_of('/')` and calls `erase(0, end + 1)`.
When no separator exists, `end` is `npos = SIZE_MAX`, so `end + 1`
overflows to `0` and `erase(0, 0)` leaves the string unchanged. -/
def getObjectNameFromPath (objectPath : Str) : Str :=
  match findLast '/' objectPath with
  | some e => objectPath.drop (e + 1)
  | none => objectPath

/-- `H5Utilities::extractObjectName` (H5Utilities.h:793): returns the whole
path when `find_last_of('/')` is `npos` or the path is the root `"/"`,
otherwise `substr(pos + 1)`. -/
def extractObjectName (path : Str) : Str :=
  match findLast '/' path with
  | none => path
  | some pos => if path = ['/'] then path else path.drop (pos + 1)

/-! ### Resource lifecycle model (`openFile`, `createFile`, `closeHDF5Object`, `closeFile`)

`hid_t` identifiers are `Int` (negative = invalid/sentinel, as in the
source).  The gateway registry `H5Env` resolves an open identifier to its
kind (`H5Iget_type`), its full name (`H5Iget_name`, which can fail), and
the status its matching close primitive would return.  Each operation also
returns the list of gateway calls it performed, so that claims about which
primitives run — and with which buffer sizes — are statable. -/

namespace OpenModel

inductive OEvt
  | pcreate (plist : Int)
  | psetLibverBounds (plist : Int) (low high : Nat)
  | fopen (filename : Str) (readWrite : Bool) (fapl : Int)
  | fcreate (filename : Str) (fapl : Int)
  | pclose (plist : Int)
deriving DecidableEq

def H5P_DEFAULT : Int := 0

/-- The `HDF5_VERSION_LIB_LOWER_BOUNDS` macro (H5Utilities.h:52-65); its value
is version-dependent and irrelevant to the claims, only its identity matters. -/
def HDF5_VERSION_LIB_LOWER_BOUNDS : Nat := 18

/-- The `HDF5_VERSION_LIB_UPPER_BOUNDS` macro (H5Utilities.h:52-65). -/
def HDF5_VERSION_LIB_UPPER_BOUNDS : Nat := 18

/-- `H5Utilities::openFile` (H5Utilities.h:111), as the sequence of gateway
calls it performs.  `fileAccessPropertyList` is the (positive) identifier
that `H5Pcreate(H5P_FILE_ACCESS)` returns.  In the read-write branch the
source sets the libver bounds on that property list but then calls
`H5Fopen(filename.c_str(), H5F_ACC_RDWR, H5P_DEFAULT)` — passing
`H5P_DEFAULT`, not the configured list. -/
def openFile (filename : Str) (readOnly : Bool) (fileAccessPropertyList : Int) : List OEvt :=
  if readOnly then [OEvt.fopen filename false H5P_DEFAULT]
  else
    [OEvt.pcreate fileAccessPropertyList,
     OEvt.psetLibverBounds fileAccessPropertyList HDF5_VERSION_LIB_LOWER_BOUNDS HDF5_VERSION_LIB_UPPER_BOUNDS,
     OEvt.fopen filename true H5P_DEFAULT,
     OEvt.pclose fileAccessPropertyList]

/-- `H5Utilities::createFile` (H5Utilities.h:143): here the configured
property list *is* passed to `H5Fcreate`. -/
def createFile (filename : Str) (fileAccessPropertyList : Int) : List OEvt :=
  [OEvt.pcreate fileAccessPropertyList,
   OEvt.psetLibverBounds fileAccessPropertyList HDF5_VERSION_LIB_LOWER_BOUNDS HDF5_VERSION_LIB_UPPER_BOUNDS,
   OEvt.fcreate filename fileAccessPropertyList,
   OEvt.pclose fileAccessPropertyList]

end OpenModel

namespace CloseModel

/-- `H5I_type_t` tags relevant to `closeHDF5Object`'s switch. -/
inductive H5IType
  | file
  | group
  | dataset
  | attr
  | datatype
  | dataspace
  | badid
deriving DecidableEq

/-- One open identifier in the gateway registry.  `oname = none` models an
object whose `H5Iget_name` fails (returns a negative count); `closeOK`
is whether its matching close primitive succeeds. -/
structure H5Object where
  oid : Int
  otype : H5IType
  oname : Option Str
  closeOK : Bool
deriving DecidableEq

structure H5Env where
  objects : List H5Object
deriving DecidableEq

def lookupObj (env : H5Env) (objectID : Int) : Option H5Object :=
  env.objects.find? (fun o => o.oid == objectID)

def H5Iget_type (env : H5Env) (objectID : Int) : H5IType :=
  match lookupObj env objectID with
  | some o => o.otype
  | none => H5IType.badid

/-- `H5Iget_name(id, buf, bufSize)`: returns the length of the full name
(negative on failure) and the buffer contents — HDF5 copies at most
`bufSize - 1` characters plus a NUL terminator, truncating longer names. -/
def H5Iget_name_into (env : H5Env) (objectID : Int) (bufSize : Nat) : Int × Str :=
  match lookupObj env objectID with
  | none => (-1, [])
  | some o =>
    match o.oname with
    | none => (-1, [])
    | some nm => ((nm.length : Int), nm.take (bufSize - 1))

/-- Status of the type-matching close primitive (`H5Gclose`, `H5Dclose`, …)
for the given identifier. -/
def closePrimStatus (env : H5Env) (objectID : Int) : Int :=
  match lookupObj env objectID with
  | some o => if o.closeOK then 0 else -1
  | none => -1

inductive CEvt
  | igetName (id : Int) (bufSize : Nat)
  | logLeak (id : Int) (loggedName : Str)
  | fclose (id : Int)
  | gclose (id : Int)
  | dclose (id : Int)
  | aclose (id : Int)
  | tclose (id : Int)
  | sclose (id : Int)
  | getObjCount (id : Int)
  | getObjIds (id : Int)
deriving DecidableEq

/-- `H5Utilities::closeHDF5Object` (H5Utilities.h:167).  A negative id is an
immediate success.  Otherwise the source queries the type, reads the name
into a fixed `std::array<char, 1024>` (returning `-1` if that fails), and
dispatches on the type to the matching close primitive (`-1` with no close
call in the `default` case). -/
def closeHDF5Object (env : H5Env) (objectID : Int) : Int × List CEvt :=
  if objectID < 0 then (0, [])
  else
    let objectType := H5Iget_type env objectID
    let charsRead := (H5Iget_name_into env objectID 1024).1
    if charsRead < 0 then (-1, [CEvt.igetName objectID 1024])
    else
      match objectType with
      | H5IType.file => (closePrimStatus env objectID, [CEvt.igetName objectID 1024, CEvt.fclose objectID])
      | H5IType.group => (closePrimStatus env objectID, [CEvt.igetName objectID 1024, CEvt.gclose objectID])
      | H5IType.dataset => (closePrimStatus env objectID, [CEvt.igetName objectID 1024, CEvt.dclose objectID])
      | H5IType.attr => (closePrimStatus env objectID, [CEvt.igetName objectID 1024, CEvt.aclose objectID])
      | H5IType.datatype => (closePrimStatus env objectID, [CEvt.igetName objectID 1024, CEvt.tclose objectID])
      | H5IType.dataspace => (closePrimStatus env objectID, [CEvt.igetName objectID 1024, CEvt.sclose objectID])
      | H5IType.badid => (-1, [CEvt.igetName objectID 1024])

/-- The state `closeFile` acts on: the registry, the identifiers
`H5Fget_obj_ids(fileID, DATASET|GROUP|DATATYPE|ATTR, …)` reports as still
open under the file, and whether `H5Fclose` itself would succeed. -/
structure FileState where
  env : H5Env
  leakedIDs : List Int
  fcloseOK : Bool

/-- The leak-sweep loop of `closeFile` (H5Utilities.h:244-255): for each
leaked id, `H5Iget_name` into the fixed `std::array<char, 1024>` buffer —
returning `-1` from `closeFile` if that fails — then logging the (possibly
truncated) buffer contents and calling `closeHDF5Object`, whose return
status is discarded.  The `Bool` is false when a name query failed and the
sweep returned early. -/
def sweepLoop (env : H5Env) : List Int → Bool × List CEvt
  | [] => (true, [])
  | id :: rest =>
    let r := H5Iget_name_into env id 1024
    if r.1 < 0 then (false, [CEvt.igetName id 1024])
    else
      let c := closeHDF5Object env id
      let restR := sweepLoop env rest
      (restR.1, CEvt.igetName id 1024 :: CEvt.logLeak id r.2 :: (c.2 ++ restR.2))

/-- `H5Utilities::closeFile` (H5Utilities.h:225).  Returns the `herr_t`
result, the value left in the caller's by-reference `fileID`, and the
gateway-call trace.  A negative `fileID` returns `1` untouched; a name
failure during the sweep returns `-1` *without* calling `H5Fclose` and
without overwriting the reference; otherwise the file is closed and the
reference set to `-1`. -/
def closeFile (fs : FileState) (fileID : Int) : Int × Int × List CEvt :=
  if fileID < 0 then (1, fileID, [])
  else if fs.leakedIDs.length > 0 then
    let sw := sweepLoop fs.env fs.leakedIDs
    if sw.1 = false then
      (-1, fileID, CEvt.getObjCount fileID :: CEvt.getObjIds fileID :: sw.2)
    else
      ((if fs.fcloseOK then (0 : Int) else -1), -1,
        CEvt.getObjCount fileID :: CEvt.getObjIds fileID :: (sw.2 ++ [CEvt.fclose fileID]))
  else
    ((if fs.fcloseOK then (0 : Int) else -1), -1,
      [CEvt.getObjCount fileID, CEvt.fclose fileID])

/-- Whether `H5Iget_name` succeeds for this identifier. -/
def nameResolves (env : H5Env) (objectID : Int) : Bool :=
  decide (0 ≤ (H5Iget_name_into env objectID 1024).1)

end CloseModel

/-! ### Attribute enumeration model (`getAllAttributeNames`) -/

namespace AttrModel

structure Attr where
  aname : Str
deriving DecidableEq

/-- The node `getAllAttributeNames` is called on: its attributes in
`H5_INDEX_NAME`/`H5_ITER_INC` index order, and whether `H5Oget_info`
succeeds on it (the `H5O_info_t` is value-initialised, so a failed query
leaves `num_attrs = 0`). -/
structure NodeState where
  attrs : List Attr
  oinfoOK : Bool

inductive AEvt
  | aopenByIdx (i : Nat)
  | agetNameQuery (i : Nat)
  | agetNameFetch (i : Nat) (bufSize : Nat)
  | aclose (i : Nat)
deriving DecidableEq

/-- The loop of `getAllAttributeNames` (H5Utilities.h:848-856): per index,
`H5Aopen_by_idx`; `nameSize = 1 + H5Aget_name(attributeID, 0, nullptr)`
(size query); resize the buffer to `nameSize` and fetch — `H5Aget_name`
copies at most `nameSize - 1` characters plus NUL; `H5Aclose` (whose
status, 0 here, is what the function finally returns). -/
def attrNamesLoop : List Attr → Nat → Int × List Str × List AEvt
  | [], _ => (0, [], [])
  | a :: rest, i =>
    let nameSize := 1 + a.aname.length
    let fetched := a.aname.take (nameSize - 1)
    let r := attrNamesLoop rest (i + 1)
    (r.1, fetched :: r.2.1,
      AEvt.aopenByIdx i :: AEvt.agetNameQuery i :: AEvt.agetNameFetch i nameSize :: AEvt.aclose i :: r.2.2)

/-- `H5Utilities::getAllAttributeNames(hid_t, std::list&)` (H5Utilities.h:830). -/
def getAllAttributeNames (nd : NodeState) (objectID : Int) : Int × List Str × List AEvt :=
  if objectID < 0 then (-1, [], [])
  else
    let error : Int := if nd.oinfoOK then 0 else -1
    let numAttrs := if nd.oinfoOK then nd.attrs else []
    match numAttrs with
    | [] => (error, [], [])
    | a :: rest => attrNamesLoop (a :: rest) 0

end AttrModel

/-! ### Child enumeration model (`getGroupObjects`) -/

/-! `CustomHDFDataTypes` (H5Utilities.h:95) is an `int32_t`-backed flag enum
(`Group = 1`, `Dataset = 2`, `Type = 4`, `Link = 8`, `Any = 15`) whose
values combine with `operator|`; it is modelled by the underlying bit
pattern, over which the source's casts and `&` tests act. -/
namespace CustomHDFDataTypes

def Group : Nat := 1

def Dataset : Nat := 2

def «Type» : Nat := 4

def Link : Nat := 8

def Any : Nat := 15

end CustomHDFDataTypes

namespace ListModel

/-- `H5O_type_t` results reported by `H5Oget_info_by_name`. -/
inductive H5OType
  | group
  | dataset
  | namedDatatype
  | other
deriving DecidableEq

/-- One child link of the listed group, in `H5_INDEX_NAME`/`H5_ITER_INC`
index order: its name, its object type, and whether `H5Oget_info_by_name`
succeeds on it. -/
structure Child where
  cname : Str
  ctype : H5OType
  infoOK : Bool
deriving DecidableEq

/-- The group `getGroupObjects` lists: its children and whether the initial
`H5Gget_info` call succeeds. -/
structure ListGroupState where
  children : List Child
  ginfoOK : Bool

inductive LEvt
  | lgetNameQuery (i : Nat)
  | lgetNameFetch (i : Nat) (bufSize : Nat)
  | oGetInfoByName (name : Str)
deriving DecidableEq

/-- Formalisation of the *claim's* notion of a child's "node type bit"
within the `CustomHDFDataTypes` flag set.  Used only to state the C4
counterexample; the source itself never consults a `Type` or `Link` bit. -/
def nodeTypeBit : H5OType → Nat
  | H5OType.group => CustomHDFDataTypes.Group
  | H5OType.dataset => CustomHDFDataTypes.Dataset
  | H5OType.namedDatatype => CustomHDFDataTypes.«Type»
  | H5OType.other => 0

/-- The inclusion test of the source's non-`Any` branch
(H5Utilities.h:617-627): classification must succeed, and the child must
be a group with the `Group` bit set in the filter, or a dataset with the
`Dataset` bit set.  No other object type is ever included. -/
def includeChild (typeFilter : Nat) (c : Child) : Bool :=
  c.infoOK &&
    ((c.ctype == H5OType.group && decide (Nat.land CustomHDFDataTypes.Group typeFilter ≠ 0)) ||
     (c.ctype == H5OType.dataset && decide (Nat.land CustomHDFDataTypes.Dataset typeFilter ≠ 0)))

/-- The iteration of `getGroupObjects` (H5Utilities.h:602-629).  Each
child's name is retrieved two-phase: an `H5Lget_name_by_idx` size query,
then a fetch into a buffer of `1 +` that size.  With filter `Any` the name
is pushed with no type lookup; otherwise `H5Oget_info_by_name` runs (its
status becoming the running `error`), a failure skipping just this child
while the iteration continues. -/
def getGroupObjectsLoop : List Child → Nat → Nat → Int → Int × List Str × List LEvt
  | [], _, _, error => (error, [], [])
  | c :: rest, typeFilter, i, error =>
    let size := 1 + c.cname.length
    let objectName := c.cname.take (size - 1)
    if typeFilter = CustomHDFDataTypes.Any then
      let r := getGroupObjectsLoop rest typeFilter (i + 1) error
      (r.1, objectName :: r.2.1,
        LEvt.lgetNameQuery i :: LEvt.lgetNameFetch i size :: r.2.2)
    else
      let error2 : Int := if c.infoOK then 0 else -1
      if c.infoOK then
        if (c.ctype == H5OType.group &&
              decide (Nat.land CustomHDFDataTypes.Group typeFilter ≠ 0)) ||
           (c.ctype == H5OType.dataset &&
              decide (Nat.land CustomHDFDataTypes.Dataset typeFilter ≠ 0)) then
          let r := getGroupObjectsLoop rest typeFilter (i + 1) error2
          (r.1, objectName :: r.2.1,
            LEvt.lgetNameQuery i :: LEvt.lgetNameFetch i size :: LEvt.oGetInfoByName c.cname :: r.2.2)
        else
          let r := getGroupObjectsLoop rest typeFilter (i + 1) error2
          (r.1, r.2.1,
            LEvt.lgetNameQuery i :: LEvt.lgetNameFetch i size :: LEvt.oGetInfoByName c.cname :: r.2.2)
      else
        let r := getGroupObjectsLoop rest typeFilter (i + 1) error2
        (r.1, r.2.1,
          LEvt.lgetNameQuery i :: LEvt.lgetNameFetch i size :: LEvt.oGetInfoByName c.cname :: r.2.2)

/-- `H5Utilities::getGroupObjects` (H5Utilities.h:577): `-1` when
`H5Gget_info` fails, `0` when the group is empty, otherwise the loop
(entered with `error = 0` from the successful `H5Gget_info`). -/
def getGroupObjects (g : ListGroupState) (typeFilter : Nat) : Int × List Str × List LEvt :=
  if g.ginfoOK = false then (-1, [], [])
  else if g.children.length = 0 then (0, [], [])
  else getGroupObjectsLoop g.children typeFilter 0 0

end ListModel

/-! ### Group materializer model (`createGroup`, `createGroupsFromPath`)

The gateway state is the set of group links existing under the (fixed)
parent location, each named by the slash-path relative to that parent —
exactly the strings the source hands to the primitives.  `H5Gcreate`
succeeds iff the name is non-empty, does not exist yet, and its parent
prefix (everything before the last `'/'`) already exists; `H5Gopen` and
`H5Oget_info_by_name` succeed iff the (non-empty) name exists.  HDF5 link
names are non-empty, cannot contain `'/'`, and `.` is reserved; the C2
theorems quantify over segments satisfying `Seg`, which excludes those. -/

namespace GroupModel

structure GroupsState where
  groups : List Str
deriving DecidableEq

inductive GEvt
  | oGetInfoByName (name : Str)
  | gopen (name : Str)
  | gcreate (name : Str)
  | gclose
deriving DecidableEq

def H5Oget_info_by_name (st : GroupsState) (name : Str) : Int :=
  if name ≠ [] ∧ name ∈ st.groups then 0 else -1

def H5Gopen (st : GroupsState) (name : Str) : Int :=
  if name ≠ [] ∧ name ∈ st.groups then 1 else -1

/-- Whether every intermediate of the relative path `name` exists, i.e.
the prefix before its last separator is a known group (a slash-free name
needs no intermediates). -/
def parentLinkExists (st : GroupsState) (name : Str) : Bool :=
  match findLast '/' name with
  | none => true
  | some p => decide (name.take p ∈ st.groups)

/-- `H5Gcreate(parent, name, ...)`: fails on an empty name, an existing
name, or a missing intermediate; otherwise records the group.  The
returned id is abstract; the model returns `1` — the source only ever
tests its sign. -/
def H5Gcreate (st : GroupsState) (name : Str) : Int × GroupsState :=
  if name ≠ [] ∧ name ∉ st.groups ∧ parentLinkExists st name = true then
    (1, ⟨name :: st.groups⟩)
  else (-1, st)

/-- `H5Gclose` on an id this model handed out: status `0`. -/
def H5GcloseStatus (_groupID : Int) : Int := 0

/-- `H5Utilities::createGroup` (H5Utilities.h:642): query the name with
`H5Oget_info_by_name`; on success (`error == 0`) open the existing node
with `H5Gopen`, otherwise `H5Gcreate` it. -/
def createGroup (st : GroupsState) (group : Str) : Int × GroupsState × List GEvt :=
  let error := H5Oget_info_by_name st group
  if error = 0 then
    (H5Gopen st group, st, [GEvt.oGetInfoByName group, GEvt.gopen group])
  else
    let c := H5Gcreate st group
    (c.1, c.2, [GEvt.oGetInfoByName group, GEvt.gcreate group])

/-- The `while` loop of `createGroupsFromPath` (H5Utilities.h:737-760),
entered at `pos` = the position of a `'/'` in `path`.  Per iteration:
`first = path.substr(0, pos)`, `second = path.substr(pos + 1)`,
`createGroup(parent, first)` (aborting on a negative id, otherwise
`H5Gclose`), advance `pos` to the next separator; when none remains,
`first += "/" + second` is created and closed, and the loop exits with
the close status. -/
def cgfpLoop (st : GroupsState) (path : Str) (pos : Nat) : Int × GroupsState × List GEvt :=
  let first := path.take pos
  let second := path.drop (pos + 1)
  let cg := createGroup st first
  if cg.1 < 0 then (cg.1, cg.2.1, cg.2.2)
  else
    match h : findFirstFrom '/' path (pos + 1) with
    | none =>
      let first2 := first ++ '/' :: second
      let cg2 := createGroup cg.2.1 first2
      if cg2.1 < 0 then (cg2.1, cg2.2.1, cg.2.2 ++ GEvt.gclose :: cg2.2.2)
      else (H5GcloseStatus cg2.1, cg2.2.1, cg.2.2 ++ GEvt.gclose :: (cg2.2.2 ++ [GEvt.gclose]))
    | some pos2 =>
      let r := cgfpLoop cg.2.1 path pos2
      (r.1, r.2.1, cg.2.2 ++ GEvt.gclose :: r.2.2)
termination_by path.length - pos
decreasing_by
  simp only [findFirstFrom, Option.map_eq_some'] at h
  obtain ⟨k, hk, hj⟩ := h
  have hb : ∀ (s : Str) (j : Nat), findFirst '/' s = some j → j < s.length := by
    intro s
    induction s with
    | nil =>
      intro j hj2
      simp [findFirst] at hj2
    | cons a as ih =>
      intro j hj2
      simp only [List.length_cons]
      by_cases hac : a = '/'
      · simp only [findFirst, if_pos hac, Option.some.injEq] at hj2
        omega
      · simp only [findFirst, if_neg hac, Option.map_eq_some'] at hj2
        obtain ⟨k2, hk2, hjk⟩ := hj2
        have := ih k2 hk2
        omega
  have hklen := hb _ _ hk
  have hdl : (path.drop (pos + 1)).length = path.length - (pos + 1) :=
    List.length_drop _ _
  omega

/-- The "Remove any trailing slash" block (H5Utilities.h:713-717):
`pos = find_last_of('/')`; erase when `pos == path.size() - 1`.  In the
`npos` case the C++ guard can only hold for the empty string (`size_t`
underflow makes `0 - 1 == npos`), where `substr(0, npos)` changes
nothing, so the `none` branch leaves `path` unchanged. -/
def stripTrailing (path : Str) : Str :=
  match findLast '/' path with
  | some p => if p = path.length - 1 then path.take p else path
  | none => path

/-- The tail of `createGroupsFromPath` after front-slash handling
(H5Utilities.h:712-761): strip one trailing slash, fail on a now-empty
path, then either the one-element case (`createGroup` + `H5Gclose`) or
the prefix-by-prefix loop entered at the first separator. -/
def cgfpAfterFront (path : Str) (st : GroupsState) : Int × GroupsState × List GEvt :=
  let path1 := stripTrailing path
  if path1 = [] then (-1, st, [])
  else
    match findFirstFrom '/' path1 0 with
    | none =>
      let cg := createGroup st path1
      if cg.1 < 0 then (cg.1, cg.2.1, cg.2.2)
      else (H5GcloseStatus cg.1, cg.2.1, cg.2.2 ++ [GEvt.gclose])
    | some pos => cgfpLoop st path1 pos

/-- `H5Utilities::createGroupsFromPath` (H5Utilities.h:674): reject a
non-positive parent before touching the gateway; strip one leading slash
(`find_first_of('/', 0) == 0`); when the path has no separator at all
(`npos`), the one-element special case (`createGroup`, `H5Gclose`,
returning the close status); otherwise continue with the trailing-slash
handling and the loop. -/
def createGroupsFromPath (pathToCheck : Str) (parent : Int) (st : GroupsState) :
    Int × GroupsState × List GEvt :=
  if parent ≤ 0 then (-1, st, [])
  else
    match findFirstFrom '/' pathToCheck 0 with
    | some 0 => cgfpAfterFront (pathToCheck.drop 1) st
    | none =>
      let cg := createGroup st pathToCheck
      if cg.1 < 0 then (cg.1, cg.2.1, cg.2.2)
      else (H5GcloseStatus cg.1, cg.2.1, cg.2.2 ++ [GEvt.gclose])
    | some _ => cgfpAfterFront pathToCheck st

/-- A well-formed path segment for the C2 claim: non-empty, containing no
separator, and not the reserved link name `.`. -/
def Seg (s : Str) : Prop := s ≠ [] ∧ '/' ∉ s ∧ s ≠ ['.']

instance (s : Str) : Decidable (Seg s) :=
  inferInstanceAs (Decidable (s ≠ [] ∧ '/' ∉ s ∧ s ≠ ['.']))

/-- Slash-joining of path segments (claim-side vocabulary for C2's "path
of 1..N non-empty segments"). -/
def joinSegs : List Str → Str
  | [] => []
  | [s] => s
  | s :: t :: rest => s ++ '/' :: joinSegs (t :: rest)

/-- The C2 claim's path shapes: segments joined by `'/'` with an optional
leading and trailing separator. -/
def mkPath (lead : Bool) (segs : List Str) (trail : Bool) : Str :=
  (if lead then ['/'] else []) ++ joinSegs segs ++ (if trail then ['/'] else [])

/-- Every cumulative prefix of `segs` exists as a group of `st`. -/
def allPrefixes (segs : List Str) (st : GroupsState) : Prop :=
  ∀ k, 0 < k → k ≤ segs.length → joinSegs (segs.take k) ∈ st.groups

end GroupModel

/-! ## Theorems -/

theorem findFirst_eq_none {c : Char} {s : Str} : findFirst c s = none ↔ c ∉ s := by
  induction s with
  | nil => simp [findFirst]
  | cons a as ih =>
    by_cases h : a = c
    · simp [findFirst, h]
    · rw [findFirst, if_neg h, Option.map_eq_none', ih]
      constructor
      · intro hn hmem
        rcases List.mem_cons.mp hmem with hca | hin
        · exact h hca.symm
        · exact hn hin
      · intro hn hin
        exact hn (List.mem_cons_of_mem _ hin)

theorem findLast_eq_none {c : Char} {s : Str} : findLast c s = none ↔ c ∉ s := by
  induction s with
  | nil => simp [findLast]
  | cons a as ih =>
    cases htail : findLast c as with
    | some j =>
      have hmem : c ∈ as := by
        by_contra hc
        rw [ih.mpr hc] at htail
        cases htail
      simp [findLast, htail, List.mem_cons, hmem]
    | none =>
      by_cases h : a = c
      · simp [findLast, htail, h]
      · have hnotin : c ∉ as := ih.mp htail
        rw [findLast, htail, if_neg h]
        constructor
        · intro _ hmem
          rcases List.mem_cons.mp hmem with hca | hin
          · exact h hca.symm
          · exact hnotin hin
        · intro _
          rfl

theorem findLast_append_cons {c : Char} (a b : Str) (hb : c ∉ b) :
    findLast c (a ++ c :: b) = some a.length := by
  induction a with
  | nil => simp [findLast, findLast_eq_none.mpr hb]
  | cons x a ih => simp [findLast, ih]

theorem findFirst_append_cons {c : Char} (a b : Str) (ha : c ∉ a) :
    findFirst c (a ++ c :: b) = some a.length := by
  induction a with
  | nil => simp [findFirst]
  | cons x a ih =>
    have hx : ¬ x = c := by intro h; exact ha (by simp [h])
    have ha' : c ∉ a := fun h => ha (by simp [h])
    simp [findFirst, hx, ih ha']

/-- C6 counterexample: the claim predicts that a path without a separator
yields the empty parent "without failing", but `getParentPath "a"` reaches
`erase(npos, …)`, which throws `std::out_of_range` (modelled `none`). -/
theorem getParentPath_no_separator_counterexample :
    getParentPath ['a'] = none ∧ getParentPath ['a'] ≠ some [] := by
  constructor <;> decide

/-- C6 (amended): for a path containing a separator, `getParentPath` returns
the prefix up to and excluding the last `'/'`; for a path with no separator
it throws `std::out_of_range` (modelled as `none`) instead of returning an
empty parent. -/
theorem getParentPath_amended (a b p : Str) (hb : '/' ∉ b) (hp : '/' ∉ p) :
    getParentPath (a ++ '/' :: b) = some a ∧ getParentPath p = none := by
  constructor
  · simp [getParentPath, findLast_append_cons a b hb, List.take_left]
  · simp [getParentPath, findLast_eq_none.mpr hp]

theorem getParentPath_amended_witness :
    getParentPath (['a'] ++ '/' :: ['c']) = some ['a'] ∧ getParentPath ['x'] = none :=
  getParentPath_amended ['a'] ['c'] ['x'] (by decide) (by decide)

/-- C7 counterexample: the claim says the root path `"/"` is returned
unchanged by the exposed leaf-name utilities, but
`getObjectNameFromPath("/")` erases the whole string and returns `""`. -/
theorem getObjectNameFromPath_root_counterexample :
    getObjectNameFromPath ['/'] = [] ∧ ([] : Str) ≠ ['/'] := by
  constructor <;> decide

/-- C7 (amended): `extractObjectName` returns the substring after the last
separator, with the literal root `"/"` returned unchanged; but
`getObjectNameFromPath` has no root special case: it always returns the
substring after the last separator, so it maps `"/"` to `""`.  Paths with
no separator are returned unchanged by both. -/
theorem leaf_name_amended (a b p : Str) (hb : '/' ∉ b) (hp : '/' ∉ p)
    (hab : a ≠ [] ∨ b ≠ []) :
    extractObjectName (a ++ '/' :: b) = b ∧
    getObjectNameFromPath (a ++ '/' :: b) = b ∧
    extractObjectName ['/'] = ['/'] ∧
    getObjectNameFromPath ['/'] = [] ∧
    extractObjectName p = p ∧
    getObjectNameFromPath p = p := by
  have hlast := findLast_append_cons a b hb
  have hdrop : (a ++ '/' :: b).drop (a.length + 1) = b := by
    have : a ++ '/' :: b = (a ++ ['/']) ++ b := by simp
    rw [this]
    have hlen : (a ++ ['/']).length = a.length + 1 := by simp
    rw [← hlen, List.drop_left]
  have hne : a ++ '/' :: b ≠ ['/'] := by
    intro h
    rcases hab with ha | hb'
    · cases a with
      | nil => exact ha rfl
      | cons x a' =>
        have : x = '/' ∧ a' ++ '/' :: b = [] := by
          simpa using h
        simp at this
    · cases a with
      | nil =>
        have : b = [] := by simpa using h
        exact hb' this
      | cons x a' =>
        have : x = '/' ∧ a' ++ '/' :: b = [] := by simpa using h
        simp at this
  refine ⟨?_, ?_, by decide, by decide, ?_, ?_⟩
  · simp [extractObjectName, hlast, hne, hdrop]
  · simp [getObjectNameFromPath, hlast, hdrop]
  · simp [extractObjectName, findLast_eq_none.mpr hp]
  · simp [getObjectNameFromPath, findLast_eq_none.mpr hp]

theorem leaf_name_amended_witness :
    extractObjectName (('a' :: '/' :: ['b']) ++ '/' :: ['c']) = ['c'] ∧
    getObjectNameFromPath (('a' :: '/' :: ['b']) ++ '/' :: ['c']) = ['c'] ∧
    extractObjectName ['/'] = ['/'] ∧
    getObjectNameFromPath ['/'] = [] ∧
    extractObjectName ['x'] = ['x'] ∧
    getObjectNameFromPath ['x'] = ['x'] :=
  leaf_name_amended ('a' :: '/' :: ['b']) ['c'] ['x'] (by decide) (by decide)
    (Or.inl (by decide))

/-- C3 (code bug): with `readOnly = false`, `openFile` creates a property
list, sets the `[lowerBound, upperBound]` libver window on it — and then
opens the file with `H5P_DEFAULT`, so the negotiation is *not* in effect
for the open.  `createFile`, by contrast, does pass the configured list. -/
theorem openFile_rdwr_ignores_libver_bounds (filename : Str) (p : Int) (hp : 0 < p) :
    OpenModel.OEvt.psetLibverBounds p OpenModel.HDF5_VERSION_LIB_LOWER_BOUNDS
      OpenModel.HDF5_VERSION_LIB_UPPER_BOUNDS ∈ OpenModel.openFile filename false p ∧
    OpenModel.OEvt.fopen filename true OpenModel.H5P_DEFAULT ∈ OpenModel.openFile filename false p ∧
    OpenModel.OEvt.fopen filename true p ∉ OpenModel.openFile filename false p ∧
    OpenModel.OEvt.fcreate filename p ∈ OpenModel.createFile filename p := by
  refine ⟨by simp [OpenModel.openFile], by simp [OpenModel.openFile], ?_,
    by simp [OpenModel.createFile]⟩
  intro h
  simp [OpenModel.openFile, OpenModel.H5P_DEFAULT] at h
  omega

theorem openFile_rdwr_ignores_libver_bounds_witness :
    OpenModel.OEvt.psetLibverBounds 1 OpenModel.HDF5_VERSION_LIB_LOWER_BOUNDS
      OpenModel.HDF5_VERSION_LIB_UPPER_BOUNDS ∈ OpenModel.openFile ['f'] false 1 ∧
    OpenModel.OEvt.fopen ['f'] true OpenModel.H5P_DEFAULT ∈ OpenModel.openFile ['f'] false 1 ∧
    OpenModel.OEvt.fopen ['f'] true 1 ∉ OpenModel.openFile ['f'] false 1 ∧
    OpenModel.OEvt.fcreate ['f'] 1 ∈ OpenModel.createFile ['f'] 1 :=
  openFile_rdwr_ignores_libver_bounds ['f'] 1 (by decide)

/-- C8: closing a negative (invalid/sentinel) handle is a no-op success:
`closeHDF5Object` returns `0` and `closeFile` returns `1`, neither one
performing any gateway call. -/
theorem close_on_negative_handle_noop (env : CloseModel.H5Env) (objectID : Int)
    (fs : CloseModel.FileState) (fileID : Int)
    (h1 : objectID < 0) (h2 : fileID < 0) :
    CloseModel.closeHDF5Object env objectID = (0, []) ∧
    CloseModel.closeFile fs fileID = (1, fileID, []) := by
  constructor
  · simp [CloseModel.closeHDF5Object, h1]
  · simp [CloseModel.closeFile, h2]

theorem close_on_negative_handle_noop_witness :
    CloseModel.closeHDF5Object ⟨[]⟩ (-1) = (0, []) ∧
    CloseModel.closeFile ⟨⟨[]⟩, [], true⟩ (-2) = (1, -2, []) :=
  close_on_negative_handle_noop ⟨[]⟩ (-1) ⟨⟨[]⟩, [], true⟩ (-2) (by decide) (by decide)

theorem closeHDF5Object_igetName_size {env : CloseModel.H5Env} {oid cid : Int} {cb : Nat}
    (h : CloseModel.CEvt.igetName cid cb ∈ (CloseModel.closeHDF5Object env oid).2) :
    cb = 1024 := by
  by_cases h0 : oid < 0
  · simp [CloseModel.closeHDF5Object, h0] at h
  · by_cases h1 : (CloseModel.H5Iget_name_into env oid 1024).1 < 0
    · simp [CloseModel.closeHDF5Object, h0, h1] at h
      exact h.2
    · cases ht : CloseModel.H5Iget_type env oid <;>
        simp [CloseModel.closeHDF5Object, h0, h1, ht] at h <;>
        exact h.2

theorem sweepLoop_igetName_size {env : CloseModel.H5Env} {ids : List Int} {cid : Int} {cb : Nat}
    (h : CloseModel.CEvt.igetName cid cb ∈ (CloseModel.sweepLoop env ids).2) : cb = 1024 := by
  induction ids with
  | nil => simp [CloseModel.sweepLoop] at h
  | cons a rest ih =>
    by_cases h1 : (CloseModel.H5Iget_name_into env a 1024).1 < 0
    · simp [CloseModel.sweepLoop, h1] at h
      exact h.2
    · simp only [CloseModel.sweepLoop, if_neg h1, List.mem_cons, List.mem_append] at h
      rcases h with h | h | h | h
      · cases h
        rfl
      · cases h
      · exact closeHDF5Object_igetName_size h
      · exact ih h

theorem closeFile_igetName_size {fs : CloseModel.FileState} {fid cid : Int} {cb : Nat}
    (h : CloseModel.CEvt.igetName cid cb ∈ (CloseModel.closeFile fs fid).2.2) : cb = 1024 := by
  by_cases h0 : fid < 0
  · simp [CloseModel.closeFile, h0] at h
  · by_cases h1 : fs.leakedIDs.length > 0
    · by_cases h2 : (CloseModel.sweepLoop fs.env fs.leakedIDs).1 = false
      · simp [CloseModel.closeFile, h0, h1, h2] at h
        exact sweepLoop_igetName_size h
      · simp [CloseModel.closeFile, h0, h1, h2, List.mem_append] at h
        exact sweepLoop_igetName_size h
    · simp [CloseModel.closeFile, h0, h1] at h

theorem nameResolves_not_lt {env : CloseModel.H5Env} {id : Int}
    (h : CloseModel.nameResolves env id = true) :
    ¬ (CloseModel.H5Iget_name_into env id 1024).1 < 0 := by
  have := of_decide_eq_true h
  omega

theorem sweepLoop_all_resolved {env : CloseModel.H5Env} {ids : List Int}
    (h : ∀ i ∈ ids, CloseModel.nameResolves env i = true) :
    (CloseModel.sweepLoop env ids).1 = true ∧
    ∀ id ∈ ids, ∀ e ∈ (CloseModel.closeHDF5Object env id).2,
      e ∈ (CloseModel.sweepLoop env ids).2 := by
  induction ids with
  | nil => exact ⟨rfl, by simp⟩
  | cons a rest ih =>
    have ha := nameResolves_not_lt (h a (List.mem_cons_self a rest))
    have ih' := ih (fun i hi => h i (List.mem_cons_of_mem a hi))
    constructor
    · simp only [CloseModel.sweepLoop, if_neg ha]
      exact ih'.1
    · intro id hid e he
      rcases List.mem_cons.mp hid with hEq | hin
      · subst hEq
        simp only [CloseModel.sweepLoop, if_neg ha, List.mem_cons, List.mem_append]
        exact Or.inr (Or.inr (Or.inl he))
      · simp only [CloseModel.sweepLoop, if_neg ha, List.mem_cons, List.mem_append]
        exact Or.inr (Or.inr (Or.inr (ih'.2 id hin e he)))

/-- C1 counterexample: a file whose only leaked descendant has an
unresolvable diagnostic name.  Although `H5Fclose` itself would succeed
(`fcloseOK = true`), `closeFile` returns `-1`, leaves the caller's
reference untouched, and never calls `H5Fclose` — the name-resolution
failure *is* propagated and the file is left open. -/
theorem closeFile_name_failure_counterexample :
    (⟨⟨[⟨5, CloseModel.H5IType.group, none, true⟩]⟩, [5], true⟩ : CloseModel.FileState).fcloseOK
        = true ∧
    (CloseModel.closeFile ⟨⟨[⟨5, CloseModel.H5IType.group, none, true⟩]⟩, [5], true⟩ 2).1 = -1 ∧
    (CloseModel.closeFile ⟨⟨[⟨5, CloseModel.H5IType.group, none, true⟩]⟩, [5], true⟩ 2).2.1 = 2 ∧
    CloseModel.CEvt.fclose 2 ∉
      (CloseModel.closeFile ⟨⟨[⟨5, CloseModel.H5IType.group, none, true⟩]⟩, [5], true⟩ 2).2.2 := by
  decide

/-- C1 (amended): when every leaked descendant's diagnostic name resolves,
`closeFile` force-closes each descendant via `closeHDF5Object` (whose
status, including failures, is discarded), closes the file, overwrites the
reference with `-1`, and returns exactly the `H5Fclose` status.  (When a
name resolution fails, however, `closeFile` returns `-1` without closing
the file — see the counterexample.) -/
theorem closeFile_leak_sweep_amended (fs : CloseModel.FileState) (fileID id : Int)
    (e : CloseModel.CEvt)
    (hfid : 0 ≤ fileID)
    (hres : ∀ i ∈ fs.leakedIDs, CloseModel.nameResolves fs.env i = true)
    (hid : id ∈ fs.leakedIDs)
    (he : e ∈ (CloseModel.closeHDF5Object fs.env id).2) :
    (CloseModel.closeFile fs fileID).1 = (if fs.fcloseOK then 0 else -1) ∧
    (CloseModel.closeFile fs fileID).2.1 = -1 ∧
    CloseModel.CEvt.fclose fileID ∈ (CloseModel.closeFile fs fileID).2.2 ∧
    e ∈ (CloseModel.closeFile fs fileID).2.2 := by
  have h0 : ¬ fileID < 0 := by omega
  have hlen : fs.leakedIDs.length > 0 :=
    List.length_pos.mpr (List.ne_nil_of_mem hid)
  have hsw := sweepLoop_all_resolved hres
  have h2 : ¬ (CloseModel.sweepLoop fs.env fs.leakedIDs).1 = false := by
    simp [hsw.1]
  refine ⟨?_, ?_, ?_, ?_⟩ <;>
    simp only [CloseModel.closeFile, if_neg h0, if_pos hlen, if_neg h2]
  · simp [List.mem_append]
  · simp only [List.mem_cons, List.mem_append]
    exact Or.inr (Or.inr (Or.inl (hsw.2 id hid e he)))

theorem closeFile_leak_sweep_amended_witness :
    (CloseModel.closeFile
      ⟨⟨[⟨4, CloseModel.H5IType.group, some ['g'], false⟩,
         ⟨5, CloseModel.H5IType.dataset, some ['d'], true⟩]⟩, [4, 5], true⟩ 2).1 = 0 ∧
    (CloseModel.closeFile
      ⟨⟨[⟨4, CloseModel.H5IType.group, some ['g'], false⟩,
         ⟨5, CloseModel.H5IType.dataset, some ['d'], true⟩]⟩, [4, 5], true⟩ 2).2.1 = -1 ∧
    CloseModel.CEvt.fclose 2 ∈
      (CloseModel.closeFile
        ⟨⟨[⟨4, CloseModel.H5IType.group, some ['g'], false⟩,
           ⟨5, CloseModel.H5IType.dataset, some ['d'], true⟩]⟩, [4, 5], true⟩ 2).2.2 ∧
    CloseModel.CEvt.gclose 4 ∈
      (CloseModel.closeFile
        ⟨⟨[⟨4, CloseModel.H5IType.group, some ['g'], false⟩,
           ⟨5, CloseModel.H5IType.dataset, some ['d'], true⟩]⟩, [4, 5], true⟩ 2).2.2 :=
  closeFile_leak_sweep_amended
    ⟨⟨[⟨4, CloseModel.H5IType.group, some ['g'], false⟩,
       ⟨5, CloseModel.H5IType.dataset, some ['d'], true⟩]⟩, [4, 5], true⟩ 2 4
    (CloseModel.CEvt.gclose 4) (by decide) (by decide) (by decide) (by decide)

theorem attrNamesLoop_names (attrs : List AttrModel.Attr) (i : Nat) :
    (AttrModel.attrNamesLoop attrs i).2.1 = attrs.map AttrModel.Attr.aname := by
  induction attrs generalizing i with
  | nil => rfl
  | cons a rest ih =>
    simp [AttrModel.attrNamesLoop, ih, Nat.add_sub_cancel_left, List.take_length]

theorem attrNamesLoop_fetch_size (attrs : List AttrModel.Attr) (i iq bq : Nat)
    (h : AttrModel.AEvt.agetNameFetch iq bq ∈ (AttrModel.attrNamesLoop attrs i).2.2) :
    ∃ j, iq = i + j ∧ (attrs[j]?).map (fun a => 1 + a.aname.length) = some bq := by
  induction attrs generalizing i with
  | nil => simp [AttrModel.attrNamesLoop] at h
  | cons a rest ih =>
    simp only [AttrModel.attrNamesLoop, List.mem_cons] at h
    rcases h with h | h | h | h | h
    · cases h
    · cases h
    · refine ⟨0, ?_, ?_⟩
      · cases h
        omega
      · cases h
        simp
    · cases h
    · obtain ⟨j, hj, hget⟩ := ih (i + 1) h
      refine ⟨j + 1, by omega, ?_⟩
      simpa using hget

set_option maxRecDepth 8000 in
/-- C5 counterexample: the claim requires *every* name retrieval in the
component to size its buffer from a prior size query; but `closeFile`'s
leak sweep retrieves each leaked object's name into a fixed
`std::array<char, 1024>` with no size query, so a 1500-character name is
fetched with buffer size 1024 (≠ 1500 + 1) and logged truncated. -/
theorem closeFile_fixed_buffer_counterexample :
    CloseModel.CEvt.igetName 7 1024 ∈
      (CloseModel.closeFile
        ⟨⟨[⟨7, CloseModel.H5IType.group, some (List.replicate 1500 'a'), true⟩]⟩, [7], true⟩
        3).2.2 ∧
    CloseModel.CEvt.logLeak 7 (List.replicate 1023 'a') ∈
      (CloseModel.closeFile
        ⟨⟨[⟨7, CloseModel.H5IType.group, some (List.replicate 1500 'a'), true⟩]⟩, [7], true⟩
        3).2.2 ∧
    List.replicate 1023 'a' ≠ List.replicate 1500 'a' ∧
    (1024 : Nat) ≠ 1500 + 1 := by
  decide

/-- C5 (amended): attribute-name retrieval (`getAllAttributeNames`) follows
the two-phase protocol — every fetch buffer is sized `1 +` the queried
length and the returned list holds every attribute name untruncated, of
any length — but the leak sweep in `closeFile` instead reads every name
into a fixed 1024-character buffer. -/
theorem getGroupObjectsLoop_any_names (children : List ListModel.Child) (i : Nat)
    (error : Int) :
    (ListModel.getGroupObjectsLoop children CustomHDFDataTypes.Any i error).2.1 =
      children.map ListModel.Child.cname := by
  induction children generalizing i error with
  | nil => rfl
  | cons c rest ih =>
    simp [ListModel.getGroupObjectsLoop, ih, Nat.add_sub_cancel_left, List.take_length]

theorem getGroupObjectsLoop_any_no_lookup (children : List ListModel.Child) (i : Nat)
    (error : Int) (nm : Str) :
    ListModel.LEvt.oGetInfoByName nm ∉
      (ListModel.getGroupObjectsLoop children CustomHDFDataTypes.Any i error).2.2 := by
  induction children generalizing i error with
  | nil => simp [ListModel.getGroupObjectsLoop]
  | cons c rest ih =>
    simp [ListModel.getGroupObjectsLoop]
    exact ih (i + 1) error

theorem getGroupObjectsLoop_names (children : List ListModel.Child) (typeFilter : Nat)
    (i : Nat) (error : Int) (hf : typeFilter ≠ CustomHDFDataTypes.Any) :
    (ListModel.getGroupObjectsLoop children typeFilter i error).2.1 =
      (children.filter (ListModel.includeChild typeFilter)).map ListModel.Child.cname := by
  induction children generalizing i error with
  | nil => rfl
  | cons c rest ih =>
    simp only [ListModel.getGroupObjectsLoop, if_neg hf]
    cases hok : c.infoOK with
    | false =>
      have hinc : ListModel.includeChild typeFilter c = false := by
        simp [ListModel.includeChild, hok]
      simp [ih, List.filter_cons, hinc]
    | true =>
      by_cases htest :
          ((c.ctype == ListModel.H5OType.group &&
              decide (Nat.land CustomHDFDataTypes.Group typeFilter ≠ 0)) ||
           (c.ctype == ListModel.H5OType.dataset &&
              decide (Nat.land CustomHDFDataTypes.Dataset typeFilter ≠ 0))) = true
      · have hinc : ListModel.includeChild typeFilter c = true := by
          simp only [ListModel.includeChild, hok, Bool.true_and]
          exact htest
        rw [if_pos htest]
        simp [ih, List.filter_cons, hinc, Nat.add_sub_cancel_left, List.take_length]
      · have hinc : ListModel.includeChild typeFilter c = false := by
          simp only [ListModel.includeChild, hok, Bool.true_and]
          exact Bool.eq_false_iff.mpr htest
        rw [if_neg htest]
        simp [ih, List.filter_cons, hinc]

theorem getGroupObjectsLoop_fetch_size (children : List ListModel.Child) (typeFilter : Nat)
    (i : Nat) (error : Int) (iq bq : Nat)
    (h : ListModel.LEvt.lgetNameFetch iq bq ∈
      (ListModel.getGroupObjectsLoop children typeFilter i error).2.2) :
    ∃ j, iq = i + j ∧ (children[j]?).map (fun c => 1 + c.cname.length) = some bq := by
  induction children generalizing i error with
  | nil => simp [ListModel.getGroupObjectsLoop] at h
  | cons c rest ih =>
    by_cases hAny : typeFilter = CustomHDFDataTypes.Any
    · subst hAny
      simp [ListModel.getGroupObjectsLoop] at h
      rcases h with ⟨hi, hb⟩ | h
      · exact ⟨0, by omega, by simp [hb]⟩
      · obtain ⟨j, hj, hget⟩ := ih (i + 1) error h
        exact ⟨j + 1, by omega, by simpa using hget⟩
    · simp only [ListModel.getGroupObjectsLoop, if_neg hAny] at h
      by_cases hok : c.infoOK = true
      · rw [if_pos hok] at h
        by_cases htest :
            ((c.ctype == ListModel.H5OType.group &&
                decide (Nat.land CustomHDFDataTypes.Group typeFilter ≠ 0)) ||
             (c.ctype == ListModel.H5OType.dataset &&
                decide (Nat.land CustomHDFDataTypes.Dataset typeFilter ≠ 0))) = true
        · rw [if_pos htest] at h
          simp [hok] at h
          rcases h with ⟨hi, hb⟩ | h
          · exact ⟨0, by omega, by simp [hb]⟩
          · obtain ⟨j, hj, hget⟩ := ih (i + 1) _ h
            exact ⟨j + 1, by omega, by simpa using hget⟩
        · rw [if_neg htest] at h
          simp [hok] at h
          rcases h with ⟨hi, hb⟩ | h
          · exact ⟨0, by omega, by simp [hb]⟩
          · obtain ⟨j, hj, hget⟩ := ih (i + 1) _ h
            exact ⟨j + 1, by omega, by simpa using hget⟩
      · rw [if_neg hok] at h
        simp [hok] at h
        rcases h with ⟨hi, hb⟩ | h
        · exact ⟨0, by omega, by simp [hb]⟩
        · obtain ⟨j, hj, hget⟩ := ih (i + 1) _ h
          exact ⟨j + 1, by omega, by simpa using hget⟩

theorem getGroupObjects_fetch_size (g : ListModel.ListGroupState) (typeFilter : Nat)
    (jq cq : Nat)
    (h : ListModel.LEvt.lgetNameFetch jq cq ∈ (ListModel.getGroupObjects g typeFilter).2.2) :
    (g.children[jq]?).map (fun c => 1 + c.cname.length) = some cq := by
  obtain ⟨children, ginfoOK⟩ := g
  cases ginfoOK with
  | false => simp [ListModel.getGroupObjects] at h
  | true =>
    cases children with
    | nil => simp [ListModel.getGroupObjects] at h
    | cons c rest =>
      simp only [ListModel.getGroupObjects] at h
      norm_num at h
      obtain ⟨j, hj, hget⟩ := getGroupObjectsLoop_fetch_size (c :: rest) typeFilter 0 0 jq cq h
      rw [hj]
      simpa using hget

theorem name_retrieval_two_phase_amended (nd : AttrModel.NodeState) (objectID : Int)
    (iq bq : Nat) (lg : ListModel.ListGroupState) (ltf : Nat) (jq cq : Nat)
    (fs : CloseModel.FileState) (fid cid : Int) (cb : Nat)
    (h1 : 0 ≤ objectID) (h2 : nd.oinfoOK = true)
    (hfetch : AttrModel.AEvt.agetNameFetch iq bq ∈
      (AttrModel.getAllAttributeNames nd objectID).2.2)
    (hlf : ListModel.LEvt.lgetNameFetch jq cq ∈ (ListModel.getGroupObjects lg ltf).2.2)
    (hclose : CloseModel.CEvt.igetName cid cb ∈ (CloseModel.closeFile fs fid).2.2) :
    (AttrModel.getAllAttributeNames nd objectID).2.1 = nd.attrs.map AttrModel.Attr.aname ∧
    (nd.attrs[iq]?).map (fun a => 1 + a.aname.length) = some bq ∧
    (lg.children[jq]?).map (fun c => 1 + c.cname.length) = some cq ∧
    cb = 1024 := by
  have h0 : ¬ objectID < 0 := by omega
  obtain ⟨attrs, oinfoOK⟩ := nd
  cases h2
  cases attrs with
  | nil =>
    simp [AttrModel.getAllAttributeNames, h0] at hfetch
  | cons a rest =>
    simp only [AttrModel.getAllAttributeNames, if_neg h0, if_pos rfl] at hfetch ⊢
    refine ⟨attrNamesLoop_names (a :: rest) 0, ?_,
      getGroupObjects_fetch_size lg ltf jq cq hlf, closeFile_igetName_size hclose⟩
    obtain ⟨j, hj, hget⟩ := attrNamesLoop_fetch_size (a :: rest) 0 iq bq hfetch
    rw [hj]
    simpa using hget

theorem getGroupObjects_names (g : ListModel.ListGroupState) (typeFilter : Nat)
    (hg : g.ginfoOK = true) (hf : typeFilter ≠ CustomHDFDataTypes.Any) :
    (ListModel.getGroupObjects g typeFilter).2.1 =
      (g.children.filter (ListModel.includeChild typeFilter)).map ListModel.Child.cname := by
  obtain ⟨children, ginfoOK⟩ := g
  cases hg
  cases children with
  | nil => simp [ListModel.getGroupObjects]
  | cons c rest =>
    simp only [ListModel.getGroupObjects]
    norm_num
    exact getGroupObjectsLoop_names (c :: rest) typeFilter 0 0 hf

theorem getGroupObjects_any_names (g : ListModel.ListGroupState) (hg : g.ginfoOK = true) :
    (ListModel.getGroupObjects g CustomHDFDataTypes.Any).2.1 =
      g.children.map ListModel.Child.cname := by
  obtain ⟨children, ginfoOK⟩ := g
  cases hg
  cases children with
  | nil => simp [ListModel.getGroupObjects]
  | cons c rest =>
    simp only [ListModel.getGroupObjects]
    norm_num
    exact getGroupObjectsLoop_any_names (c :: rest) 0 0

theorem getGroupObjects_any_no_lookup (g : ListModel.ListGroupState) (nm : Str) :
    ListModel.LEvt.oGetInfoByName nm ∉
      (ListModel.getGroupObjects g CustomHDFDataTypes.Any).2.2 := by
  obtain ⟨children, ginfoOK⟩ := g
  cases ginfoOK with
  | false => simp [ListModel.getGroupObjects]
  | true =>
    cases children with
    | nil => simp [ListModel.getGroupObjects]
    | cons c rest =>
      simp only [ListModel.getGroupObjects]
      norm_num
      exact getGroupObjectsLoop_any_no_lookup (c :: rest) 0 0 nm

/-- C4 counterexample: a named-datatype child whose node type bit (`Type = 4`)
intersects the filter `Type`.  The claim says its name is included; the
source only ever tests the `Group` and `Dataset` bits against group- and
dataset-typed children, so the listing is empty. -/
theorem getGroupObjects_datatype_filter_counterexample :
    Nat.land (ListModel.nodeTypeBit ListModel.H5OType.namedDatatype)
      CustomHDFDataTypes.«Type» ≠ 0 ∧
    (ListModel.getGroupObjects
      ⟨[⟨['t'], ListModel.H5OType.namedDatatype, true⟩], true⟩
      CustomHDFDataTypes.«Type»).2.1 = [] := by
  decide

/-- C4 (amended): with filter `Any`, `getGroupObjects` returns every child
name in index order with no `H5Oget_info_by_name` lookup; with any other
filter, a child's name is included iff its classification succeeds and the
child is a group with the `Group` bit set in the filter or a dataset with
the `Dataset` bit set — children of any other type (named datatypes in
particular) are never included, whatever filter bits are set. -/
theorem getGroupObjects_filter_amended (g : ListModel.ListGroupState) (typeFilter : Nat)
    (nm : Str) (hg : g.ginfoOK = true) (hf : typeFilter ≠ CustomHDFDataTypes.Any) :
    (ListModel.getGroupObjects g CustomHDFDataTypes.Any).2.1 =
      g.children.map ListModel.Child.cname ∧
    ListModel.LEvt.oGetInfoByName nm ∉
      (ListModel.getGroupObjects g CustomHDFDataTypes.Any).2.2 ∧
    (ListModel.getGroupObjects g typeFilter).2.1 =
      (g.children.filter (ListModel.includeChild typeFilter)).map ListModel.Child.cname :=
  ⟨getGroupObjects_any_names g hg, getGroupObjects_any_no_lookup g nm,
    getGroupObjects_names g typeFilter hg hf⟩

theorem getGroupObjects_filter_amended_witness :
    (ListModel.getGroupObjects
        ⟨[⟨['g'], ListModel.H5OType.group, true⟩, ⟨['d'], ListModel.H5OType.dataset, true⟩], true⟩
        CustomHDFDataTypes.Any).2.1 =
      ([⟨['g'], ListModel.H5OType.group, true⟩, ⟨['d'], ListModel.H5OType.dataset, true⟩] :
          List ListModel.Child).map ListModel.Child.cname ∧
    ListModel.LEvt.oGetInfoByName ['q'] ∉
      (ListModel.getGroupObjects
        ⟨[⟨['g'], ListModel.H5OType.group, true⟩, ⟨['d'], ListModel.H5OType.dataset, true⟩], true⟩
        CustomHDFDataTypes.Any).2.2 ∧
    (ListModel.getGroupObjects
        ⟨[⟨['g'], ListModel.H5OType.group, true⟩, ⟨['d'], ListModel.H5OType.dataset, true⟩], true⟩
        CustomHDFDataTypes.Group).2.1 =
      (([⟨['g'], ListModel.H5OType.group, true⟩, ⟨['d'], ListModel.H5OType.dataset, true⟩] :
          List ListModel.Child).filter
        (ListModel.includeChild CustomHDFDataTypes.Group)).map ListModel.Child.cname :=
  getGroupObjects_filter_amended
    ⟨[⟨['g'], ListModel.H5OType.group, true⟩, ⟨['d'], ListModel.H5OType.dataset, true⟩], true⟩
    CustomHDFDataTypes.Group ['q'] rfl (by decide)

/-- C9: with a non-`Any` filter, a child whose classification fails is
skipped and iteration continues: the names returned for
`pre ++ [c] ++ post` are exactly the names for `pre` followed by the names
for `post`, so every later matching child is still listed. -/
theorem getGroupObjects_skip_failure (pre post : List ListModel.Child) (c : ListModel.Child)
    (typeFilter : Nat) (hf : typeFilter ≠ CustomHDFDataTypes.Any) (hc : c.infoOK = false) :
    (ListModel.getGroupObjects ⟨pre ++ c :: post, true⟩ typeFilter).2.1 =
      (ListModel.getGroupObjects ⟨pre, true⟩ typeFilter).2.1 ++
        (ListModel.getGroupObjects ⟨post, true⟩ typeFilter).2.1 := by
  have hinc : ListModel.includeChild typeFilter c = false := by
    simp [ListModel.includeChild, hc]
  rw [getGroupObjects_names _ _ rfl hf, getGroupObjects_names _ _ rfl hf,
    getGroupObjects_names _ _ rfl hf]
  simp [List.filter_append, List.filter_cons, hinc]

theorem getGroupObjects_skip_failure_witness :
    (ListModel.getGroupObjects
        ⟨[⟨['g'], ListModel.H5OType.group, true⟩] ++
          ⟨['x'], ListModel.H5OType.group, false⟩ ::
            [⟨['h'], ListModel.H5OType.group, true⟩, ⟨['d'], ListModel.H5OType.dataset, true⟩],
          true⟩ CustomHDFDataTypes.Group).2.1 =
      (ListModel.getGroupObjects ⟨[⟨['g'], ListModel.H5OType.group, true⟩], true⟩
          CustomHDFDataTypes.Group).2.1 ++
        (ListModel.getGroupObjects
          ⟨[⟨['h'], ListModel.H5OType.group, true⟩, ⟨['d'], ListModel.H5OType.dataset, true⟩],
            true⟩ CustomHDFDataTypes.Group).2.1 :=
  getGroupObjects_skip_failure [⟨['g'], ListModel.H5OType.group, true⟩]
    [⟨['h'], ListModel.H5OType.group, true⟩, ⟨['d'], ListModel.H5OType.dataset, true⟩]
    ⟨['x'], ListModel.H5OType.group, false⟩ CustomHDFDataTypes.Group (by decide) rfl

set_option maxRecDepth 8000 in
theorem name_retrieval_two_phase_amended_witness :
    (AttrModel.getAllAttributeNames ⟨[⟨List.replicate 1300 'a'⟩], true⟩ 0).2.1 =
      ([⟨List.replicate 1300 'a'⟩] : List AttrModel.Attr).map AttrModel.Attr.aname ∧
    (([⟨List.replicate 1300 'a'⟩] : List AttrModel.Attr)[0]?).map
      (fun a => 1 + a.aname.length) = some 1301 ∧
    (([⟨['c'], ListModel.H5OType.group, true⟩] : List ListModel.Child)[0]?).map
      (fun c => 1 + c.cname.length) = some 2 ∧
    (1024 : Nat) = 1024 :=
  name_retrieval_two_phase_amended ⟨[⟨List.replicate 1300 'a'⟩], true⟩ 0 0 1301
    ⟨[⟨['c'], ListModel.H5OType.group, true⟩], true⟩ CustomHDFDataTypes.Any 0 2
    ⟨⟨[⟨7, CloseModel.H5IType.group, some ['n'], true⟩]⟩, [7], true⟩ 3 7 1024
    (by decide) rfl (by decide) (by decide) (by decide)

theorem joinSegs_ne_nil {segs : List Str} (h1 : segs ≠ []) (h2 : ∀ s ∈ segs, s ≠ []) :
    GroupModel.joinSegs segs ≠ [] := by
  cases segs with
  | nil => exact absurd rfl h1
  | cons s rest =>
    cases rest with
    | nil => exact h2 s (by simp)
    | cons t r2 => simp [GroupModel.joinSegs]

theorem joinSegs_append (A B : List Str) (hA : A ≠ []) (hB : B ≠ []) :
    GroupModel.joinSegs (A ++ B) =
      GroupModel.joinSegs A ++ '/' :: GroupModel.joinSegs B := by
  induction A with
  | nil => exact absurd rfl hA
  | cons a A' ih =>
    cases A' with
    | nil =>
      cases B with
      | nil => exact absurd rfl hB
      | cons b B' => simp [GroupModel.joinSegs]
    | cons a2 A'' =>
      have hstep := ih (by simp)
      simp only [List.cons_append] at hstep ⊢
      simp [GroupModel.joinSegs, hstep]

theorem createGroup_exists {st : GroupModel.GroupsState} {g : Str}
    (hne : g ≠ []) (hmem : g ∈ st.groups) :
    GroupModel.createGroup st g =
      (1, st, [GroupModel.GEvt.oGetInfoByName g, GroupModel.GEvt.gopen g]) := by
  simp [GroupModel.createGroup, GroupModel.H5Oget_info_by_name, GroupModel.H5Gopen, hne, hmem]

theorem createGroup_new {st : GroupModel.GroupsState} {g : Str}
    (hne : g ≠ []) (hmem : g ∉ st.groups)
    (hpar : GroupModel.parentLinkExists st g = true) :
    GroupModel.createGroup st g =
      (1, ⟨g :: st.groups⟩,
        [GroupModel.GEvt.oGetInfoByName g, GroupModel.GEvt.gcreate g]) := by
  simp [GroupModel.createGroup, GroupModel.H5Oget_info_by_name, GroupModel.H5Gcreate,
    hne, hmem, hpar]

theorem parentLinkExists_single {st : GroupModel.GroupsState} {s : Str} (hs : '/' ∉ s) :
    GroupModel.parentLinkExists st s = true := by
  simp [GroupModel.parentLinkExists, findLast_eq_none.mpr hs]

theorem parentLinkExists_join {st : GroupModel.GroupsState} {A : List Str} {b : Str}
    (hA : A ≠ []) (hb : '/' ∉ b) (hmem : GroupModel.joinSegs A ∈ st.groups) :
    GroupModel.parentLinkExists st (GroupModel.joinSegs (A ++ [b])) = true := by
  rw [joinSegs_append A [b] hA (by simp)]
  have hb' : GroupModel.joinSegs [b] = b := rfl
  rw [hb']
  simp only [GroupModel.parentLinkExists, findLast_append_cons _ b hb]
  simp [List.take_left, hmem]

theorem findFirstFrom_zero (c : Char) (s : Str) : findFirstFrom c s 0 = findFirst c s := by
  cases h : findFirst c s <;> simp [findFirstFrom, h]

theorem cgfpLoop_unfold_some (st : GroupModel.GroupsState) (path : Str) (pos pos2 : Nat)
    (st1 : GroupModel.GroupsState) (tr1 : List GroupModel.GEvt)
    (hf : findFirstFrom '/' path (pos + 1) = some pos2)
    (hcg : GroupModel.createGroup st (path.take pos) = (1, st1, tr1)) :
    GroupModel.cgfpLoop st path pos =
      ((GroupModel.cgfpLoop st1 path pos2).1, (GroupModel.cgfpLoop st1 path pos2).2.1,
        tr1 ++ GroupModel.GEvt.gclose :: (GroupModel.cgfpLoop st1 path pos2).2.2) := by
  rw [GroupModel.cgfpLoop]
  simp only [hcg]
  norm_num
  split
  · rename_i heq
    rw [hf] at heq
    cases heq
  · rename_i p2 heq
    rw [hf] at heq
    injection heq with h2
    subst h2
    rfl

theorem cgfpLoop_unfold_none (st : GroupModel.GroupsState) (path : Str) (pos : Nat)
    (st1 st2 : GroupModel.GroupsState) (tr1 tr2 : List GroupModel.GEvt)
    (hf : findFirstFrom '/' path (pos + 1) = none)
    (hcg : GroupModel.createGroup st (path.take pos) = (1, st1, tr1))
    (hcg2 : GroupModel.createGroup st1 (path.take pos ++ '/' :: path.drop (pos + 1)) =
      (1, st2, tr2)) :
    GroupModel.cgfpLoop st path pos =
      (0, st2, tr1 ++ GroupModel.GEvt.gclose :: (tr2 ++ [GroupModel.GEvt.gclose])) := by
  rw [GroupModel.cgfpLoop]
  simp only [hcg]
  norm_num
  split
  · rename_i heq
    simp only [hcg2]
    norm_num
    rfl
  · rename_i p2 heq
    rw [hf] at heq
    cases heq

theorem cgfpLoop_run1 (rest : List Str) :
    ∀ (done : List Str) (st : GroupModel.GroupsState),
      rest ≠ [] → done ≠ [] →
      (∀ s ∈ done ++ rest, GroupModel.Seg s) →
      (done.length = 1 ∨ GroupModel.joinSegs done.dropLast ∈ st.groups) →
      ∃ st' tr,
        GroupModel.cgfpLoop st (GroupModel.joinSegs (done ++ rest))
            (GroupModel.joinSegs done).length = (0, st', tr) ∧
        (∀ g ∈ st.groups, g ∈ st'.groups) ∧
        (∀ k, done.length ≤ k → k ≤ (done ++ rest).length →
          GroupModel.joinSegs ((done ++ rest).take k) ∈ st'.groups) := by
  induction rest with
  | nil =>
    intro done st hrest _ _ _
    exact absurd rfl hrest
  | cons r rest' ih =>
    intro done st _ hdone hseg hpar
    have hsegdone : ∀ s ∈ done, GroupModel.Seg s :=
      fun s hs => hseg s (List.mem_append_left _ hs)
    have hsegr : GroupModel.Seg r := hseg r (List.mem_append_right _ (by simp))
    have hne_done : ∀ s ∈ done, s ≠ [] := fun s hs => (hsegdone s hs).1
    have hJd_ne : GroupModel.joinSegs done ≠ [] := joinSegs_ne_nil hdone hne_done
    have hsplit : GroupModel.joinSegs (done ++ (r :: rest')) =
        GroupModel.joinSegs done ++ '/' :: GroupModel.joinSegs (r :: rest') :=
      joinSegs_append done (r :: rest') hdone (by simp)
    have htake : (GroupModel.joinSegs (done ++ (r :: rest'))).take
        (GroupModel.joinSegs done).length = GroupModel.joinSegs done := by
      rw [hsplit]
      exact List.take_left _ _
    have hdrop : (GroupModel.joinSegs (done ++ (r :: rest'))).drop
        ((GroupModel.joinSegs done).length + 1) = GroupModel.joinSegs (r :: rest') := by
      rw [hsplit]
      rw [show GroupModel.joinSegs done ++ '/' :: GroupModel.joinSegs (r :: rest') =
        (GroupModel.joinSegs done ++ ['/']) ++ GroupModel.joinSegs (r :: rest') by simp]
      rw [show (GroupModel.joinSegs done).length + 1 =
        (GroupModel.joinSegs done ++ ['/']).length by simp]
      exact List.drop_left _ _
    -- parent prefix availability for `joinSegs done`
    have hplink : GroupModel.joinSegs done ∈ st.groups ∨
        GroupModel.parentLinkExists st (GroupModel.joinSegs done) = true := by
      by_cases hmem : GroupModel.joinSegs done ∈ st.groups
      · exact Or.inl hmem
      · right
        cases done with
        | nil => exact absurd rfl hdone
        | cons d done' =>
          cases done' with
          | nil => exact parentLinkExists_single (hsegdone d (by simp)).2.1
          | cons d2 done'' =>
            rcases hpar with hlen | hmem2
            · simp at hlen
            · have hd : (d :: d2 :: done'').dropLast ++
                  [(d :: d2 :: done'').getLast (by simp)] = d :: d2 :: done'' :=
                List.dropLast_append_getLast _
              rw [← hd]
              have hAne : (d :: d2 :: done'').dropLast ≠ [] := by
                have : (d :: d2 :: done'').dropLast.length = done''.length + 1 := by
                  simp [List.length_dropLast]
                intro hcontra
                rw [hcontra] at this
                simp at this
              have hbmem : (d :: d2 :: done'').getLast (by simp) ∈ d :: d2 :: done'' :=
                List.getLast_mem _
              exact parentLinkExists_join hAne (hsegdone _ hbmem).2.1 hmem2
    -- execute `createGroup st (joinSegs done)`
    obtain ⟨st1, tr1, hst1run, hst1mono, hst1mem⟩ :
        ∃ st1 tr1,
          GroupModel.createGroup st (GroupModel.joinSegs done) = (1, st1, tr1) ∧
          (∀ g ∈ st.groups, g ∈ st1.groups) ∧
          GroupModel.joinSegs done ∈ st1.groups := by
      by_cases hmem : GroupModel.joinSegs done ∈ st.groups
      · exact ⟨st, _, createGroup_exists hJd_ne hmem, fun g hg => hg, hmem⟩
      · rcases hplink with hmem2 | hpl
        · exact absurd hmem2 hmem
        · exact ⟨⟨GroupModel.joinSegs done :: st.groups⟩, _,
            createGroup_new hJd_ne hmem hpl,
            fun g hg => List.mem_cons_of_mem _ hg, List.mem_cons_self _ _⟩
    have hcg' : GroupModel.createGroup st
        ((GroupModel.joinSegs (done ++ (r :: rest'))).take (GroupModel.joinSegs done).length) =
        (1, st1, tr1) := by
      rw [htake]
      exact hst1run
    cases rest' with
    | nil =>
      have hff : findFirstFrom '/' (GroupModel.joinSegs (done ++ [r]))
          ((GroupModel.joinSegs done).length + 1) = none := by
        rw [findFirstFrom, hdrop]
        have hr1 : GroupModel.joinSegs [r] = r := rfl
        rw [hr1, findFirst_eq_none.mpr hsegr.2.1]
        rfl
      have hfull_ne : GroupModel.joinSegs (done ++ [r]) ≠ [] :=
        joinSegs_ne_nil (by simp)
          (fun s hs => (hseg s (by simpa using hs)).1)
      obtain ⟨st2, tr2, hst2run, hst2mono, hst2mem⟩ :
          ∃ st2 tr2,
            GroupModel.createGroup st1 (GroupModel.joinSegs (done ++ [r])) = (1, st2, tr2) ∧
            (∀ g ∈ st1.groups, g ∈ st2.groups) ∧
            GroupModel.joinSegs (done ++ [r]) ∈ st2.groups := by
        by_cases hmem2 : GroupModel.joinSegs (done ++ [r]) ∈ st1.groups
        · exact ⟨st1, _, createGroup_exists hfull_ne hmem2, fun g hg => hg, hmem2⟩
        · exact ⟨⟨GroupModel.joinSegs (done ++ [r]) :: st1.groups⟩, _,
            createGroup_new hfull_ne hmem2
              (parentLinkExists_join hdone hsegr.2.1 hst1mem),
            fun g hg => List.mem_cons_of_mem _ hg, List.mem_cons_self _ _⟩
      have hcg2' : GroupModel.createGroup st1
          ((GroupModel.joinSegs (done ++ [r])).take (GroupModel.joinSegs done).length ++
            '/' :: (GroupModel.joinSegs (done ++ [r])).drop
              ((GroupModel.joinSegs done).length + 1)) = (1, st2, tr2) := by
        rw [htake, hdrop]
        rw [show GroupModel.joinSegs done ++ '/' :: GroupModel.joinSegs [r] =
          GroupModel.joinSegs (done ++ [r]) from
            (joinSegs_append done [r] hdone (by simp)).symm]
        exact hst2run
      refine ⟨st2, _, cgfpLoop_unfold_none _ _ _ _ _ _ _ hff hcg' hcg2', ?_, ?_⟩
      · exact fun g hg => hst2mono g (hst1mono g hg)
      · intro k hk1 hk2
        have hlen : (done ++ [r]).length = done.length + 1 := by simp
        rw [hlen] at hk2
        have hcase : k = done.length ∨ k = done.length + 1 := by omega
        rcases hcase with hk | hk
        · subst hk
          rw [List.take_left _ _]
          exact hst2mono _ hst1mem
        · subst hk
          rw [← hlen, List.take_length]
          exact hst2mem
    | cons r2 rest'' =>
      have hff : findFirstFrom '/' (GroupModel.joinSegs (done ++ (r :: r2 :: rest'')))
          ((GroupModel.joinSegs done).length + 1) =
          some ((GroupModel.joinSegs (done ++ [r])).length) := by
        rw [findFirstFrom, hdrop]
        have hjr : GroupModel.joinSegs (r :: r2 :: rest'') =
            r ++ '/' :: GroupModel.joinSegs (r2 :: rest'') := rfl
        rw [hjr, findFirst_append_cons r _ hsegr.2.1]
        have hlen2 : (GroupModel.joinSegs (done ++ [r])).length =
            r.length + ((GroupModel.joinSegs done).length + 1) := by
          rw [joinSegs_append done [r] hdone (by simp)]
          have hr1 : GroupModel.joinSegs [r] = r := rfl
          rw [hr1]
          simp
          omega
        rw [hlen2]
        rfl
      have hreassoc : (done ++ [r]) ++ (r2 :: rest'') = done ++ (r :: r2 :: rest'') := by
        simp
      obtain ⟨st', tr', hrun, hmono, hpref⟩ :=
        ih (done ++ [r]) st1 (by simp) (by simp)
          (by rw [hreassoc]; exact hseg)
          (Or.inr (by rw [List.dropLast_concat]; exact hst1mem))
      rw [hreassoc] at hrun
      have hunfold := cgfpLoop_unfold_some st
        (GroupModel.joinSegs (done ++ (r :: r2 :: rest''))) (GroupModel.joinSegs done).length
        (GroupModel.joinSegs (done ++ [r])).length st1 tr1 hff hcg'
      refine ⟨st', tr1 ++ GroupModel.GEvt.gclose :: tr', ?_, ?_, ?_⟩
      · rw [hunfold, hrun]
      · exact fun g hg => hmono g (hst1mono g hg)
      · intro k hk1 hk2
        by_cases hk : k = done.length
        · subst hk
          rw [List.take_left _ _]
          exact hmono _ hst1mem
        · have hk1' : (done ++ [r]).length ≤ k := by
            simp only [List.length_append, List.length_cons, List.length_nil] at *
            omega
          have hk2' : k ≤ ((done ++ [r]) ++ (r2 :: rest'')).length := by
            simp only [List.length_append, List.length_cons, List.length_nil] at *
            omega
          have hres := hpref k hk1' hk2'
          rw [hreassoc] at hres
          exact hres

theorem cgfpLoop_run2 (rest : List Str) :
    ∀ (done : List Str) (st : GroupModel.GroupsState),
      rest ≠ [] → done ≠ [] →
      (∀ s ∈ done ++ rest, GroupModel.Seg s) →
      (∀ k, 0 < k → k ≤ (done ++ rest).length →
        GroupModel.joinSegs ((done ++ rest).take k) ∈ st.groups) →
      ∃ tr, GroupModel.cgfpLoop st (GroupModel.joinSegs (done ++ rest))
          (GroupModel.joinSegs done).length = (0, st, tr) := by
  induction rest with
  | nil =>
    intro done st hrest _ _ _
    exact absurd rfl hrest
  | cons r rest' ih =>
    intro done st _ hdone hseg hall
    have hsegdone : ∀ s ∈ done, GroupModel.Seg s :=
      fun s hs => hseg s (List.mem_append_left _ hs)
    have hsegr : GroupModel.Seg r := hseg r (List.mem_append_right _ (by simp))
    have hJd_ne : GroupModel.joinSegs done ≠ [] :=
      joinSegs_ne_nil hdone (fun s hs => (hsegdone s hs).1)
    have hsplit : GroupModel.joinSegs (done ++ (r :: rest')) =
        GroupModel.joinSegs done ++ '/' :: GroupModel.joinSegs (r :: rest') :=
      joinSegs_append done (r :: rest') hdone (by simp)
    have htake : (GroupModel.joinSegs (done ++ (r :: rest'))).take
        (GroupModel.joinSegs done).length = GroupModel.joinSegs done := by
      rw [hsplit]
      exact List.take_left _ _
    have hdrop : (GroupModel.joinSegs (done ++ (r :: rest'))).drop
        ((GroupModel.joinSegs done).length + 1) = GroupModel.joinSegs (r :: rest') := by
      rw [hsplit]
      rw [show GroupModel.joinSegs done ++ '/' :: GroupModel.joinSegs (r :: rest') =
        (GroupModel.joinSegs done ++ ['/']) ++ GroupModel.joinSegs (r :: rest') by simp]
      rw [show (GroupModel.joinSegs done).length + 1 =
        (GroupModel.joinSegs done ++ ['/']).length by simp]
      exact List.drop_left _ _
    have hdonelen : 0 < done.length := by
      cases done with
      | nil => exact absurd rfl hdone
      | cons _ _ => simp
    have hmemdone : GroupModel.joinSegs done ∈ st.groups := by
      have hres := hall done.length hdonelen (by simp)
      rw [List.take_left _ _] at hres
      exact hres
    have hcgdone := @createGroup_exists st _ hJd_ne hmemdone
    have hcg' : GroupModel.createGroup st
        ((GroupModel.joinSegs (done ++ (r :: rest'))).take (GroupModel.joinSegs done).length) =
        (1, st, [GroupModel.GEvt.oGetInfoByName (GroupModel.joinSegs done),
          GroupModel.GEvt.gopen (GroupModel.joinSegs done)]) := by
      rw [htake]
      exact hcgdone
    cases rest' with
    | nil =>
      have hff : findFirstFrom '/' (GroupModel.joinSegs (done ++ [r]))
          ((GroupModel.joinSegs done).length + 1) = none := by
        rw [findFirstFrom, hdrop]
        have hr1 : GroupModel.joinSegs [r] = r := rfl
        rw [hr1, findFirst_eq_none.mpr hsegr.2.1]
        rfl
      have hfull_ne : GroupModel.joinSegs (done ++ [r]) ≠ [] :=
        joinSegs_ne_nil (by simp) (fun s hs => (hseg s (by simpa using hs)).1)
      have hmemfull : GroupModel.joinSegs (done ++ [r]) ∈ st.groups := by
        have hres := hall (done ++ [r]).length (by simp) (by simp)
        rw [List.take_length] at hres
        exact hres
      have hcg2' : GroupModel.createGroup st
          ((GroupModel.joinSegs (done ++ [r])).take (GroupModel.joinSegs done).length ++
            '/' :: (GroupModel.joinSegs (done ++ [r])).drop
              ((GroupModel.joinSegs done).length + 1)) =
          (1, st, [GroupModel.GEvt.oGetInfoByName (GroupModel.joinSegs (done ++ [r])),
            GroupModel.GEvt.gopen (GroupModel.joinSegs (done ++ [r]))]) := by
        rw [htake, hdrop]
        rw [show GroupModel.joinSegs done ++ '/' :: GroupModel.joinSegs [r] =
          GroupModel.joinSegs (done ++ [r]) from
            (joinSegs_append done [r] hdone (by simp)).symm]
        exact createGroup_exists hfull_ne hmemfull
      exact ⟨_, cgfpLoop_unfold_none _ _ _ _ _ _ _ hff hcg' hcg2'⟩
    | cons r2 rest'' =>
      have hff : findFirstFrom '/' (GroupModel.joinSegs (done ++ (r :: r2 :: rest'')))
          ((GroupModel.joinSegs done).length + 1) =
          some ((GroupModel.joinSegs (done ++ [r])).length) := by
        rw [findFirstFrom, hdrop]
        have hjr : GroupModel.joinSegs (r :: r2 :: rest'') =
            r ++ '/' :: GroupModel.joinSegs (r2 :: rest'') := rfl
        rw [hjr, findFirst_append_cons r _ hsegr.2.1]
        have hlen2 : (GroupModel.joinSegs (done ++ [r])).length =
            r.length + ((GroupModel.joinSegs done).length + 1) := by
          rw [joinSegs_append done [r] hdone (by simp)]
          have hr1 : GroupModel.joinSegs [r] = r := rfl
          rw [hr1]
          simp
          omega
        rw [hlen2]
        rfl
      have hreassoc : (done ++ [r]) ++ (r2 :: rest'') = done ++ (r :: r2 :: rest'') := by
        simp
      obtain ⟨tr', hrun⟩ :=
        ih (done ++ [r]) st (by simp) (by simp)
          (by rw [hreassoc]; exact hseg)
          (by
            intro k hk1 hk2
            rw [hreassoc]
            rw [hreassoc] at hk2
            exact hall k hk1 hk2)
      rw [hreassoc] at hrun
      have hunfold := cgfpLoop_unfold_some st
        (GroupModel.joinSegs (done ++ (r :: r2 :: rest''))) (GroupModel.joinSegs done).length
        (GroupModel.joinSegs (done ++ [r])).length st _ hff hcg'
      exact ⟨[GroupModel.GEvt.oGetInfoByName (GroupModel.joinSegs done),
        GroupModel.GEvt.gopen (GroupModel.joinSegs done)] ++
          GroupModel.GEvt.gclose :: tr', by rw [hunfold, hrun]⟩

theorem stripTrailing_slash (J : Str) :
    GroupModel.stripTrailing (J ++ ['/']) = J := by
  have hlast : findLast '/' (J ++ ['/']) = some J.length := by
    simpa using findLast_append_cons J [] (by simp)
  simp only [GroupModel.stripTrailing, hlast]
  rw [if_pos (by simp)]
  exact List.take_left _ _

theorem stripTrailing_no_slash {s : Str} (hs : '/' ∉ s) :
    GroupModel.stripTrailing s = s := by
  simp [GroupModel.stripTrailing, findLast_eq_none.mpr hs]

theorem stripTrailing_joinSegs (segs : List Str) (hne : segs ≠ [])
    (hseg : ∀ s ∈ segs, GroupModel.Seg s) :
    GroupModel.stripTrailing (GroupModel.joinSegs segs) = GroupModel.joinSegs segs := by
  cases segs with
  | nil => exact absurd rfl hne
  | cons s1 rest =>
    cases rest with
    | nil => exact stripTrailing_no_slash (hseg s1 (by simp)).2.1
    | cons s2 rest' =>
      have hd : (s1 :: s2 :: rest').dropLast ++
          [(s1 :: s2 :: rest').getLast (by simp)] = s1 :: s2 :: rest' :=
        List.dropLast_append_getLast _
      have hAne : (s1 :: s2 :: rest').dropLast ≠ [] := by
        have hlen : (s1 :: s2 :: rest').dropLast.length = rest'.length + 1 := by
          simp [List.length_dropLast]
        intro hcontra
        rw [hcontra] at hlen
        simp at hlen
      have hlastmem : (s1 :: s2 :: rest').getLast (by simp) ∈ s1 :: s2 :: rest' :=
        List.getLast_mem _
      have hbSeg := hseg _ hlastmem
      rw [← hd, joinSegs_append _ [_] hAne (by simp)]
      have hb1 : GroupModel.joinSegs [(s1 :: s2 :: rest').getLast (by simp)] =
          (s1 :: s2 :: rest').getLast (by simp) := rfl
      rw [hb1]
      have hlast : findLast '/'
          (GroupModel.joinSegs (s1 :: s2 :: rest').dropLast ++
            '/' :: (s1 :: s2 :: rest').getLast (by simp)) =
          some (GroupModel.joinSegs (s1 :: s2 :: rest').dropLast).length :=
        findLast_append_cons _ _ hbSeg.2.1
      have hblen : 0 < ((s1 :: s2 :: rest').getLast (by simp)).length := by
        cases hgl : (s1 :: s2 :: rest').getLast (by simp) with
        | nil => exact absurd hgl hbSeg.1
        | cons _ _ => simp
      have hcond : ¬ (GroupModel.joinSegs (s1 :: s2 :: rest').dropLast).length =
          (GroupModel.joinSegs (s1 :: s2 :: rest').dropLast ++
            '/' :: (s1 :: s2 :: rest').getLast (by simp)).length - 1 := by
        simp only [List.length_append, List.length_cons]
        omega
      simp only [GroupModel.stripTrailing, hlast]
      rw [if_neg hcond]

theorem createGroup_seg (st : GroupModel.GroupsState) (s : Str) (hs : GroupModel.Seg s) :
    ∃ st' tr, GroupModel.createGroup st s = (1, st', tr) ∧
      (∀ g ∈ st.groups, g ∈ st'.groups) ∧ s ∈ st'.groups := by
  by_cases hmem : s ∈ st.groups
  · exact ⟨st, _, createGroup_exists hs.1 hmem, fun g hg => hg, hmem⟩
  · exact ⟨⟨s :: st.groups⟩, _,
      createGroup_new hs.1 hmem (parentLinkExists_single hs.2.1),
      fun g hg => List.mem_cons_of_mem _ hg, List.mem_cons_self _ _⟩

theorem cgfpAfterFront_run1 (segs : List Str) (trail : Bool) (st : GroupModel.GroupsState)
    (hne : segs ≠ []) (hseg : ∀ s ∈ segs, GroupModel.Seg s) :
    ∃ st' tr,
      GroupModel.cgfpAfterFront
          (GroupModel.joinSegs segs ++ (if trail then ['/'] else [])) st = (0, st', tr) ∧
      (∀ g ∈ st.groups, g ∈ st'.groups) ∧ GroupModel.allPrefixes segs st' := by
  have hJne : GroupModel.joinSegs segs ≠ [] :=
    joinSegs_ne_nil hne (fun s hs => (hseg s hs).1)
  have hstrip : GroupModel.stripTrailing
      (GroupModel.joinSegs segs ++ (if trail then ['/'] else [])) =
      GroupModel.joinSegs segs := by
    cases trail with
    | true => simpa using stripTrailing_slash (GroupModel.joinSegs segs)
    | false => simpa using stripTrailing_joinSegs segs hne hseg
  simp only [GroupModel.cgfpAfterFront, hstrip, if_neg hJne]
  cases segs with
  | nil => exact absurd rfl hne
  | cons s1 rest =>
    cases rest with
    | nil =>
      have hj : GroupModel.joinSegs [s1] = s1 := rfl
      have hffz : findFirstFrom '/' (GroupModel.joinSegs [s1]) 0 = none := by
        rw [findFirstFrom_zero, hj, findFirst_eq_none.mpr (hseg s1 (by simp)).2.1]
      obtain ⟨st', tr, hcg, hmono, hmem⟩ :=
        createGroup_seg st (GroupModel.joinSegs [s1]) (by rw [hj]; exact hseg s1 (by simp))
      refine ⟨st', tr ++ [GroupModel.GEvt.gclose], ?_, hmono, ?_⟩
      · split
        · simp [hcg, GroupModel.H5GcloseStatus]
        · rename_i p heq
          rw [hffz] at heq
          cases heq
      · intro k hk1 hk2
        simp only [List.length_cons, List.length_nil] at hk2
        have hk : k = 1 := by omega
        subst hk
        simpa using hmem
    | cons s2 rest' =>
      have hsp : GroupModel.joinSegs (s1 :: s2 :: rest') =
          s1 ++ '/' :: GroupModel.joinSegs (s2 :: rest') := rfl
      have hffz : findFirstFrom '/' (GroupModel.joinSegs (s1 :: s2 :: rest')) 0 =
          some s1.length := by
        rw [findFirstFrom_zero, hsp, findFirst_append_cons _ _ (hseg s1 (by simp)).2.1]
      obtain ⟨st', tr, hrun, hmono, hpref⟩ :=
        cgfpLoop_run1 (s2 :: rest') [s1] st (by simp) (by simp)
          (by simpa using hseg) (Or.inl rfl)
      refine ⟨st', tr, ?_, hmono, ?_⟩
      · split
        · rename_i heq
          rw [hffz] at heq
          cases heq
        · rename_i p heq
          rw [hffz] at heq
          injection heq with h2
          subst h2
          exact hrun
      · intro k hk1 hk2
        exact hpref k (by simp only [List.length_cons, List.length_nil]; omega)
          (by simpa using hk2)

theorem cgfpAfterFront_run2 (segs : List Str) (trail : Bool) (st : GroupModel.GroupsState)
    (hne : segs ≠ []) (hseg : ∀ s ∈ segs, GroupModel.Seg s)
    (hall : GroupModel.allPrefixes segs st) :
    ∃ tr, GroupModel.cgfpAfterFront
        (GroupModel.joinSegs segs ++ (if trail then ['/'] else [])) st = (0, st, tr) := by
  have hJne : GroupModel.joinSegs segs ≠ [] :=
    joinSegs_ne_nil hne (fun s hs => (hseg s hs).1)
  have hstrip : GroupModel.stripTrailing
      (GroupModel.joinSegs segs ++ (if trail then ['/'] else [])) =
      GroupModel.joinSegs segs := by
    cases trail with
    | true => simpa using stripTrailing_slash (GroupModel.joinSegs segs)
    | false => simpa using stripTrailing_joinSegs segs hne hseg
  simp only [GroupModel.cgfpAfterFront, hstrip, if_neg hJne]
  cases segs with
  | nil => exact absurd rfl hne
  | cons s1 rest =>
    cases rest with
    | nil =>
      have hj : GroupModel.joinSegs [s1] = s1 := rfl
      have hffz : findFirstFrom '/' (GroupModel.joinSegs [s1]) 0 = none := by
        rw [findFirstFrom_zero, hj, findFirst_eq_none.mpr (hseg s1 (by simp)).2.1]
      have hmem : GroupModel.joinSegs [s1] ∈ st.groups := by
        simpa using hall 1 (by omega) (by simp)
      have hcg := @createGroup_exists st (GroupModel.joinSegs [s1])
        (by rw [hj]; exact (hseg s1 (by simp)).1) hmem
      refine ⟨[GroupModel.GEvt.oGetInfoByName (GroupModel.joinSegs [s1]),
        GroupModel.GEvt.gopen (GroupModel.joinSegs [s1])] ++ [GroupModel.GEvt.gclose], ?_⟩
      split
      · simp [hcg, GroupModel.H5GcloseStatus]
      · rename_i p heq
        rw [hffz] at heq
        cases heq
    | cons s2 rest' =>
      have hsp : GroupModel.joinSegs (s1 :: s2 :: rest') =
          s1 ++ '/' :: GroupModel.joinSegs (s2 :: rest') := rfl
      have hffz : findFirstFrom '/' (GroupModel.joinSegs (s1 :: s2 :: rest')) 0 =
          some s1.length := by
        rw [findFirstFrom_zero, hsp, findFirst_append_cons _ _ (hseg s1 (by simp)).2.1]
      obtain ⟨tr, hrun⟩ :=
        cgfpLoop_run2 (s2 :: rest') [s1] st (by simp) (by simp)
          (by simpa using hseg)
          (fun k hk1 hk2 => hall k hk1 (by simpa using hk2))
      refine ⟨tr, ?_⟩
      split
      · rename_i heq
        rw [hffz] at heq
        cases heq
      · rename_i p heq
        rw [hffz] at heq
        injection heq with h2
        subst h2
        exact hrun

theorem createGroupsFromPath_run1 (segs : List Str) (lead trail : Bool)
    (st : GroupModel.GroupsState) (parent : Int)
    (hp : 0 < parent) (hne : segs ≠ []) (hseg : ∀ s ∈ segs, GroupModel.Seg s) :
    ∃ st' tr,
      GroupModel.createGroupsFromPath (GroupModel.mkPath lead segs trail) parent st =
        (0, st', tr) ∧
      (∀ g ∈ st.groups, g ∈ st'.groups) ∧ GroupModel.allPrefixes segs st' := by
  have hnp : ¬ parent ≤ 0 := by omega
  cases lead with
  | true =>
    have hmk : GroupModel.mkPath true segs trail =
        '/' :: (GroupModel.joinSegs segs ++ (if trail then ['/'] else [])) := by
      simp [GroupModel.mkPath]
    have hff0 : findFirstFrom '/' (GroupModel.mkPath true segs trail) 0 = some 0 := by
      rw [hmk, findFirstFrom_zero]
      simp [findFirst]
    obtain ⟨st', tr, hrun, hmono, hpref⟩ := cgfpAfterFront_run1 segs trail st hne hseg
    refine ⟨st', tr, ?_, hmono, hpref⟩
    simp only [GroupModel.createGroupsFromPath, if_neg hnp, hff0]
    rw [hmk]
    simpa using hrun
  | false =>
    cases segs with
    | nil => exact absurd rfl hne
    | cons s1 rest =>
      have hs1 : GroupModel.Seg s1 := hseg s1 (by simp)
      cases rest with
      | nil =>
        cases trail with
        | false =>
          have hmk : GroupModel.mkPath false [s1] false = s1 := by
            simp [GroupModel.mkPath, GroupModel.joinSegs]
          have hffn : findFirstFrom '/' (GroupModel.mkPath false [s1] false) 0 = none := by
            rw [hmk, findFirstFrom_zero, findFirst_eq_none.mpr hs1.2.1]
          obtain ⟨st', tr, hcg, hmono, hmem⟩ :=
            createGroup_seg st (GroupModel.mkPath false [s1] false) (by rw [hmk]; exact hs1)
          refine ⟨st', tr ++ [GroupModel.GEvt.gclose], ?_, hmono, ?_⟩
          · simp only [GroupModel.createGroupsFromPath, if_neg hnp, hffn]
            simp [hcg, GroupModel.H5GcloseStatus]
          · intro k hk1 hk2
            simp only [List.length_cons, List.length_nil] at hk2
            have hk : k = 1 := by omega
            subst hk
            have hj : GroupModel.joinSegs ([s1].take 1) = s1 := rfl
            rw [hj, ← hmk]
            exact hmem
        | true =>
          obtain ⟨c1, s1t, rfl⟩ : ∃ c1 s1t, s1 = c1 :: s1t := by
            cases s1 with
            | nil => exact absurd rfl hs1.1
            | cons c t => exact ⟨c, t, rfl⟩
          have hmk : GroupModel.mkPath false [c1 :: s1t] true =
              GroupModel.joinSegs [c1 :: s1t] ++ (if true then ['/'] else []) := by
            simp [GroupModel.mkPath]
          have hffs : findFirstFrom '/' (GroupModel.mkPath false [c1 :: s1t] true) 0 =
              some (s1t.length + 1) := by
            rw [hmk, findFirstFrom_zero]
            have hj : GroupModel.joinSegs [c1 :: s1t] = c1 :: s1t := rfl
            rw [hj]
            simpa using findFirst_append_cons (c1 :: s1t) [] hs1.2.1
          obtain ⟨st', tr, hrun, hmono, hpref⟩ :=
            cgfpAfterFront_run1 [c1 :: s1t] true st hne hseg
          refine ⟨st', tr, ?_, hmono, hpref⟩
          simp only [GroupModel.createGroupsFromPath, if_neg hnp, hffs]
          rw [hmk]
          exact hrun
      | cons s2 rest' =>
        obtain ⟨c1, s1t, rfl⟩ : ∃ c1 s1t, s1 = c1 :: s1t := by
          cases s1 with
          | nil => exact absurd rfl hs1.1
          | cons c t => exact ⟨c, t, rfl⟩
        have hsp : GroupModel.joinSegs ((c1 :: s1t) :: s2 :: rest') =
            (c1 :: s1t) ++ '/' :: GroupModel.joinSegs (s2 :: rest') := rfl
        have hmk : GroupModel.mkPath false ((c1 :: s1t) :: s2 :: rest') trail =
            GroupModel.joinSegs ((c1 :: s1t) :: s2 :: rest') ++
              (if trail then ['/'] else []) := by
          simp [GroupModel.mkPath]
        have hffs : findFirstFrom '/'
            (GroupModel.mkPath false ((c1 :: s1t) :: s2 :: rest') trail) 0 =
            some (s1t.length + 1) := by
          rw [hmk, findFirstFrom_zero, hsp]
          rw [show ((c1 :: s1t) ++ '/' :: GroupModel.joinSegs (s2 :: rest')) ++
              (if trail then ['/'] else []) =
            (c1 :: s1t) ++ '/' :: (GroupModel.joinSegs (s2 :: rest') ++
              (if trail then ['/'] else [])) by simp]
          simpa using findFirst_append_cons (c1 :: s1t) _ hs1.2.1
        obtain ⟨st', tr, hrun, hmono, hpref⟩ :=
          cgfpAfterFront_run1 ((c1 :: s1t) :: s2 :: rest') trail st hne hseg
        refine ⟨st', tr, ?_, hmono, hpref⟩
        simp only [GroupModel.createGroupsFromPath, if_neg hnp, hffs]
        rw [hmk]
        exact hrun

theorem createGroupsFromPath_run2 (segs : List Str) (lead trail : Bool)
    (st : GroupModel.GroupsState) (parent : Int)
    (hp : 0 < parent) (hne : segs ≠ []) (hseg : ∀ s ∈ segs, GroupModel.Seg s)
    (hall : GroupModel.allPrefixes segs st) :
    ∃ tr, GroupModel.createGroupsFromPath (GroupModel.mkPath lead segs trail) parent st =
      (0, st, tr) := by
  have hnp : ¬ parent ≤ 0 := by omega
  cases lead with
  | true =>
    have hmk : GroupModel.mkPath true segs trail =
        '/' :: (GroupModel.joinSegs segs ++ (if trail then ['/'] else [])) := by
      simp [GroupModel.mkPath]
    have hff0 : findFirstFrom '/' (GroupModel.mkPath true segs trail) 0 = some 0 := by
      rw [hmk, findFirstFrom_zero]
      simp [findFirst]
    obtain ⟨tr, hrun⟩ := cgfpAfterFront_run2 segs trail st hne hseg hall
    refine ⟨tr, ?_⟩
    simp only [GroupModel.createGroupsFromPath, if_neg hnp, hff0]
    rw [hmk]
    simpa using hrun
  | false =>
    cases segs with
    | nil => exact absurd rfl hne
    | cons s1 rest =>
      have hs1 : GroupModel.Seg s1 := hseg s1 (by simp)
      cases rest with
      | nil =>
        cases trail with
        | false =>
          have hmk : GroupModel.mkPath false [s1] false = s1 := by
            simp [GroupModel.mkPath, GroupModel.joinSegs]
          have hffn : findFirstFrom '/' (GroupModel.mkPath false [s1] false) 0 = none := by
            rw [hmk, findFirstFrom_zero, findFirst_eq_none.mpr hs1.2.1]
          have hmem : GroupModel.mkPath false [s1] false ∈ st.groups := by
            rw [hmk]
            simpa using hall 1 (by omega) (by simp)
          have hcg := @createGroup_exists st _
            (by rw [hmk]; exact hs1.1) hmem
          refine ⟨[GroupModel.GEvt.oGetInfoByName (GroupModel.mkPath false [s1] false),
            GroupModel.GEvt.gopen (GroupModel.mkPath false [s1] false)] ++
              [GroupModel.GEvt.gclose], ?_⟩
          simp only [GroupModel.createGroupsFromPath, if_neg hnp, hffn]
          simp [hcg, GroupModel.H5GcloseStatus]
        | true =>
          obtain ⟨c1, s1t, rfl⟩ : ∃ c1 s1t, s1 = c1 :: s1t := by
            cases s1 with
            | nil => exact absurd rfl hs1.1
            | cons c t => exact ⟨c, t, rfl⟩
          have hmk : GroupModel.mkPath false [c1 :: s1t] true =
              GroupModel.joinSegs [c1 :: s1t] ++ (if true then ['/'] else []) := by
            simp [GroupModel.mkPath]
          have hffs : findFirstFrom '/' (GroupModel.mkPath false [c1 :: s1t] true) 0 =
              some (s1t.length + 1) := by
            rw [hmk, findFirstFrom_zero]
            have hj : GroupModel.joinSegs [c1 :: s1t] = c1 :: s1t := rfl
            rw [hj]
            simpa using findFirst_append_cons (c1 :: s1t) [] hs1.2.1
          obtain ⟨tr, hrun⟩ := cgfpAfterFront_run2 [c1 :: s1t] true st hne hseg hall
          refine ⟨tr, ?_⟩
          simp only [GroupModel.createGroupsFromPath, if_neg hnp, hffs]
          rw [hmk]
          exact hrun
      | cons s2 rest' =>
        obtain ⟨c1, s1t, rfl⟩ : ∃ c1 s1t, s1 = c1 :: s1t := by
          cases s1 with
          | nil => exact absurd rfl hs1.1
          | cons c t => exact ⟨c, t, rfl⟩
        have hsp : GroupModel.joinSegs ((c1 :: s1t) :: s2 :: rest') =
            (c1 :: s1t) ++ '/' :: GroupModel.joinSegs (s2 :: rest') := rfl
        have hmk : GroupModel.mkPath false ((c1 :: s1t) :: s2 :: rest') trail =
            GroupModel.joinSegs ((c1 :: s1t) :: s2 :: rest') ++
              (if trail then ['/'] else []) := by
          simp [GroupModel.mkPath]
        have hffs : findFirstFrom '/'
            (GroupModel.mkPath false ((c1 :: s1t) :: s2 :: rest') trail) 0 =
            some (s1t.length + 1) := by
          rw [hmk, findFirstFrom_zero, hsp]
          rw [show ((c1 :: s1t) ++ '/' :: GroupModel.joinSegs (s2 :: rest')) ++
              (if trail then ['/'] else []) =
            (c1 :: s1t) ++ '/' :: (GroupModel.joinSegs (s2 :: rest') ++
              (if trail then ['/'] else [])) by simp]
          simpa using findFirst_append_cons (c1 :: s1t) _ hs1.2.1
        obtain ⟨tr, hrun⟩ :=
          cgfpAfterFront_run2 ((c1 :: s1t) :: s2 :: rest') trail st hne hseg hall
        refine ⟨tr, ?_⟩
        simp only [GroupModel.createGroupsFromPath, if_neg hnp, hffs]
        rw [hmk]
        exact hrun

/-- C2: for any path of 1..N `Seg` segments, with or without a leading or
trailing slash, `createGroupsFromPath` succeeds; running it again on the
identical path succeeds and leaves the group set unchanged (no new
groups); and `createGroup` on an already-existing (non-empty) name opens
it instead of creating — it never fails merely because the group exists. -/
theorem createGroupsFromPath_idempotent (segs : List Str) (lead trail : Bool)
    (st st2 : GroupModel.GroupsState) (g : Str) (parent : Int)
    (hp : 0 < parent) (hne : segs ≠ []) (hseg : ∀ s ∈ segs, GroupModel.Seg s)
    (hg : g ≠ []) (hgm : g ∈ st2.groups) :
    0 ≤ (GroupModel.createGroupsFromPath (GroupModel.mkPath lead segs trail) parent st).1 ∧
    (GroupModel.createGroupsFromPath (GroupModel.mkPath lead segs trail) parent
      ((GroupModel.createGroupsFromPath
        (GroupModel.mkPath lead segs trail) parent st).2.1)).1 = 0 ∧
    (GroupModel.createGroupsFromPath (GroupModel.mkPath lead segs trail) parent
      ((GroupModel.createGroupsFromPath
        (GroupModel.mkPath lead segs trail) parent st).2.1)).2.1 =
      (GroupModel.createGroupsFromPath (GroupModel.mkPath lead segs trail) parent st).2.1 ∧
    GroupModel.createGroup st2 g =
      (1, st2, [GroupModel.GEvt.oGetInfoByName g, GroupModel.GEvt.gopen g]) := by
  obtain ⟨st', tr, hrun1, _, hpref⟩ :=
    createGroupsFromPath_run1 segs lead trail st parent hp hne hseg
  obtain ⟨tr2, hrun2⟩ :=
    createGroupsFromPath_run2 segs lead trail st' parent hp hne hseg hpref
  simp only [hrun1, hrun2]
  exact ⟨by norm_num, trivial, trivial, createGroup_exists hg hgm⟩

theorem createGroupsFromPath_idempotent_witness :
    0 ≤ (GroupModel.createGroupsFromPath
      (GroupModel.mkPath true [['a'], ['b']] true) 1 ⟨[]⟩).1 ∧
    (GroupModel.createGroupsFromPath (GroupModel.mkPath true [['a'], ['b']] true) 1
      ((GroupModel.createGroupsFromPath
        (GroupModel.mkPath true [['a'], ['b']] true) 1 ⟨[]⟩).2.1)).1 = 0 ∧
    (GroupModel.createGroupsFromPath (GroupModel.mkPath true [['a'], ['b']] true) 1
      ((GroupModel.createGroupsFromPath
        (GroupModel.mkPath true [['a'], ['b']] true) 1 ⟨[]⟩).2.1)).2.1 =
      (GroupModel.createGroupsFromPath
        (GroupModel.mkPath true [['a'], ['b']] true) 1 ⟨[]⟩).2.1 ∧
    GroupModel.createGroup ⟨[['x']]⟩ ['x'] =
      (1, ⟨[['x']]⟩, [GroupModel.GEvt.oGetInfoByName ['x'], GroupModel.GEvt.gopen ['x']]) :=
  createGroupsFromPath_idempotent [['a'], ['b']] true true ⟨[]⟩ ⟨[['x']]⟩ ['x'] 1
    (by decide) (by decide) (by decide) (by decide) (by decide)

/-- C10: a non-positive parent id makes `createGroupsFromPath` return `-1`
immediately, with the gateway untouched — state unchanged and no
create/open/close call in the trace. -/
theorem createGroupsFromPath_bad_parent (path : Str) (parent : Int)
    (st : GroupModel.GroupsState) (hp : parent ≤ 0) :
    GroupModel.createGroupsFromPath path parent st = (-1, st, []) := by
  simp [GroupModel.createGroupsFromPath, hp]

theorem createGroupsFromPath_bad_parent_witness :
    GroupModel.createGroupsFromPath ['a', '/', 'b'] 0 ⟨[]⟩ = (-1, ⟨[]⟩, []) :=
  createGroupsFromPath_bad_parent ['a', '/', 'b'] 0 ⟨[]⟩ (by decide)
